import Mathlib

/-!
# Verification of the steelmaking device-scheduling core

Shallow embedding of the scheduling / timeline engine of the
`steelmaking_simulation` package:

* `scheduler.py` (`DeviceScheduler._normalize_window`, `_get_device_windows`,
  `find_slot`),
* `database/operations.py` (`OperationQueries.get_device_operation_windows`,
  `update_operation_status`, `update_operation_plan_times`,
  `get_pending_operations`, `get_heat_operations`, `insert_operation`),
* `operation_processor.py` (`OperationProcessor.process_pending_operations`),
* `heat_planner.py` (`HeatPlanner.create_new_heat`),
* `seeding/seeder.py` (`OperationSeeder.seed_initial_timeline`).

Timestamps (`datetime` values) are modelled as `Int` minutes on a global
timeline; `timedelta` values are `Int` minute counts.  The `datetime.min`
lookback constant is modelled as the `none` case of an `Option Int` lower
bound (it is the least element of the timestamp order, so every comparison
`datetime.min <= t` is true).  Randomness (`random.sample`,
`random.randint`, `random.uniform`, `random.random`) and the externally
injected context callables (`is_device_available`, `aligned_device`, the
event engine's cancel outcome) are explicit function parameters.
-/

/-- `ProcessStatus` constants from `config/constants.py`. -/
def ProcessStatus.COMPLETED : Nat := 0

/-- `ProcessStatus.ACTIVE = 1`. -/
def ProcessStatus.ACTIVE : Nat := 1

/-- `ProcessStatus.PENDING = 2`. -/
def ProcessStatus.PENDING : Nat := 2

/-- `ProcessStatus.CANCELED = 3`. -/
def ProcessStatus.CANCELED : Nat := 3

/-- `PROCESS_FLOW = ["BOF", "LF", "CCM"]` from `config/constants.py`. -/
def PROCESS_FLOW : List String := ["BOF", "LF", "CCM"]

/-- `EQUIPMENT[name]["proc_cd"]` from `config/equipment.py`. -/
def EQUIPMENT_proc_cd : String → String
  | "BOF" => "G12"
  | "LF" => "G13"
  | "CCM" => "G16"
  | _ => ""

/-- `EQUIPMENT[name]["devices"]` from `config/equipment.py`. -/
def EQUIPMENT_devices : String → List String
  | "BOF" => ["G120", "G121", "G122"]
  | "LF" => ["G130", "G131", "G132"]
  | "CCM" => ["G160", "G161", "G162"]
  | _ => []

/-- The scheduling-relevant fields of `SimulationConfig` (`config/settings.py`),
all in minutes. -/
structure SimulationConfig where
  min_operation_duration : Int
  max_operation_duration : Int
  min_transfer_gap_minutes : Int
  max_transfer_gap_minutes : Int
  max_rest_duration_minutes : Int
  min_rest_duration_minutes : Int
  seed_past_heats : Int
  seed_future_heats : Int
deriving Repr, DecidableEq

/-- One `steelmaking.steelmaking_operation` row, with the columns the
scheduling core reads or writes.  The plan columns are non-nullable: every
`insert_operation` call site passes concrete `plan_start_time` /
`plan_end_time` datetimes (the parameters are not `Optional` in
`database/operations.py`), so the dead null-plan guards of
`_normalize_window` have no counterpart here.  Metadata columns
(`pro_line_cd`, `crew_cd`, steel grade) are opaque to scheduling and
omitted. -/
structure DbRow where
  id : Nat
  heat_no : Nat
  proc_cd : String
  device_no : String
  proc_status : Nat
  plan_start_time : Int
  plan_end_time : Int
  real_start_time : Option Int
  real_end_time : Option Int
deriving Repr, DecidableEq

/-- SQL `COALESCE` on two nullable values. -/
def coalesce {α : Type} : Option α → Option α → Option α
  | some v, _ => some v
  | none, b => b

/-- Insertion of one element into a list sorted by an `Int` key
(used to model the SQL `ORDER BY` clauses and the Python `list.sort`). -/
def insertOn {α : Type} (key : α → Int) (a : α) : List α → List α
  | [] => [a]
  | b :: l => if key a ≤ key b then a :: b :: l else b :: insertOn key a l

/-- Insertion sort by an `Int` key. -/
def sortOn {α : Type} (key : α → Int) : List α → List α
  | [] => []
  | a :: l => insertOn key a (sortOn key l)

/-- `DeviceScheduler._normalize_window` (`scheduler.py`): convert a DB row
into an effective `(start, end)` window; when `include_pending_plans` is
false, drop windows that exist only as plans (PENDING with no real start).
The effective window is `(real_start or plan_start, real_end or plan_end)`. -/
def normalize_window (include_pending_plans : Bool) (row : DbRow) : Option (Int × Int) :=
  if include_pending_plans = false ∧ row.proc_status = ProcessStatus.PENDING ∧
      row.real_start_time = none then
    none
  else
    some (row.real_start_time.getD row.plan_start_time,
      row.real_end_time.getD row.plan_end_time)

/-- The SQL row filter of `OperationQueries.get_device_operation_windows`
(`database/operations.py`): device match, optional id exclusion, and
`proc_status = 1 OR COALESCE(real_end_time, plan_end_time) >= min_window_start`.
`min_window_start = none` models `datetime.min`, the least timestamp. -/
def window_row_matches (device_no : String) (min_window_start : Option Int)
    (exclude_operation_id : Option Nat) (r : DbRow) : Bool :=
  r.device_no == device_no &&
  (match exclude_operation_id with
   | none => true
   | some e => r.id != e) &&
  (r.proc_status == ProcessStatus.ACTIVE ||
   (match min_window_start with
    | none => true
    | some m => decide (m ≤ r.real_end_time.getD r.plan_end_time)))

/-- `OperationQueries.get_device_operation_windows`: matching rows ordered by
`COALESCE(real_start_time, plan_start_time)`. -/
def get_device_operation_windows (db : List DbRow) (device_no : String)
    (min_window_start : Option Int) (exclude_operation_id : Option Nat) : List DbRow :=
  sortOn (fun r => r.real_start_time.getD r.plan_start_time)
    (db.filter (window_row_matches device_no min_window_start exclude_operation_id))

/-- `DeviceScheduler._get_device_windows`: fetch rows with a
`datetime.min` lookback, normalize, and sort by window start. -/
def get_device_windows (db : List DbRow) (device_no : String)
    (exclude_operation_id : Option Nat) (include_pending_plans : Bool) : List (Int × Int) :=
  sortOn Prod.fst
    ((get_device_operation_windows db device_no none exclude_operation_id).filterMap
      (normalize_window include_pending_plans))

/-- The `lower` bound computed for one gap by the `find_slot` loop
(`scheduler.py` lines 111-127): `desired_start`, raised to
`prev_end + min_rest` and `prev_end` when a previous window exists, and to
`next_start - max_rest - duration` when the upper rest bound is enforced and
a next window exists. -/
def gap_lower (min_rest : Int) (max_rest : Option Int) (desired_start duration : Int)
    (prev_end next_start : Option Int) : Int :=
  let lower1 := match prev_end with
    | none => desired_start
    | some pe => max desired_start (pe + min_rest)
  let lower2 := match next_start, max_rest with
    | some ns, some mr => max lower1 (ns - mr - duration)
    | _, _ => lower1
  match prev_end with
  | none => lower2
  | some pe => max lower2 pe

/-- The `upper = min(upper_candidates)` value of the `find_slot` loop
(`scheduler.py` lines 112-129): `prev_end + max_rest` (when enforced and a
previous window exists), and `next_start - duration` together with
`next_start - min_rest - duration` (when a next window exists); `none` when
there are no candidates. -/
def gap_upper (min_rest : Int) (max_rest : Option Int) (duration : Int)
    (prev_end next_start : Option Int) : Option Int :=
  match next_start, prev_end, max_rest with
  | some ns, some pe, some mr =>
      some (min (pe + mr) (min (ns - duration) (ns - min_rest - duration)))
  | some ns, _, _ => some (min (ns - duration) (ns - min_rest - duration))
  | none, some pe, some mr => some (pe + mr)
  | none, _, _ => none

/-- The gap walk of `DeviceScheduler.find_slot` (the `for idx in
range(len(windows) + 1)` loop): walk the gaps of the sorted window list,
carrying `prev_end`, and return the first feasible start — skipping a gap
when its range is empty (`lower > upper`) or the duration does not fit
before the next window (`lower + duration > next_start`).  `max_rest = none`
models `enforce_max_rest=False`. -/
def search_gaps (min_rest : Int) (max_rest : Option Int) (desired_start duration : Int) :
    Option Int → List (Int × Int) → Option Int
  | prev_end, [] =>
    let lower := gap_lower min_rest max_rest desired_start duration prev_end none
    match gap_upper min_rest max_rest duration prev_end none with
    | some u => if lower > u then none else some lower
    | none => some lower
  | prev_end, w :: rest =>
    let lower := gap_lower min_rest max_rest desired_start duration prev_end (some w.1)
    match gap_upper min_rest max_rest duration prev_end (some w.1) with
    | some u =>
      if lower > u then
        search_gaps min_rest max_rest desired_start duration (some w.2) rest
      else if lower + duration > w.1 then
        search_gaps min_rest max_rest desired_start duration (some w.2) rest
      else
        some lower
    | none =>
      if lower + duration > w.1 then
        search_gaps min_rest max_rest desired_start duration (some w.2) rest
      else
        some lower

/-- `Slot` (`scheduler.py`). -/
structure Slot where
  device_no : String
  plan_start : Int
  plan_end : Int
deriving Repr, DecidableEq

/-- The per-device candidate start of `find_slot` (the value of
`selected_start` after the gap walk for one device). -/
def device_candidate (cfg : SimulationConfig) (db : List DbRow)
    (include_pending_plans enforce_max_rest : Bool) (desired_start duration : Int)
    (exclude_operation_id : Option Nat) (device_no : String) : Option Int :=
  search_gaps cfg.min_rest_duration_minutes
    (if enforce_max_rest then some cfg.max_rest_duration_minutes else none)
    desired_start duration none
    (get_device_windows db device_no exclude_operation_id include_pending_plans)

/-- The per-device slot of `find_slot`: the candidate start, discarded when it
exceeds `latest_start`, otherwise paired with `plan_end = plan_start + duration`. -/
def device_slot (cfg : SimulationConfig) (db : List DbRow)
    (include_pending_plans enforce_max_rest : Bool) (desired_start : Int)
    (latest_start : Option Int) (duration : Int) (exclude_operation_id : Option Nat)
    (device_no : String) : Option Slot :=
  match device_candidate cfg db include_pending_plans enforce_max_rest desired_start duration
      exclude_operation_id device_no with
  | none => none
  | some s =>
    match latest_start with
    | some l => if s > l then none else some ⟨device_no, s, s + duration⟩
    | none => some ⟨device_no, s, s + duration⟩

/-- One iteration of the `for device_no in random.sample(...)` loop of
`DeviceScheduler.find_slot` (`scheduler.py`): keep `best_valid` when the
device yields nothing, otherwise keep the slot with the chronologically
earlier `plan_start`.  In the source `include_pending_plans` and
`enforce_max_rest` are keyword parameters that default to `True`; here every
call site passes them explicitly. -/
def find_slot_step (cfg : SimulationConfig) (db : List DbRow)
    (include_pending_plans enforce_max_rest : Bool) (desired_start : Int)
    (latest_start : Option Int) (duration : Int) (exclude_operation_id : Option Nat)
    (best : Option Slot) (d : String) : Option Slot :=
  match device_slot cfg db include_pending_plans enforce_max_rest desired_start
      latest_start duration exclude_operation_id d with
  | none => best
  | some slot =>
    match best with
    | none => some slot
    | some b => if slot.plan_start < b.plan_start then some slot else best

/-- `DeviceScheduler.find_slot` (`scheduler.py`): try the devices in the
order produced by `random.sample` (modelled by the `sample` parameter) by
folding `find_slot_step` from `best_valid = None`, so the returned slot has
the chronologically earliest `plan_start` among the per-device slots. -/
def find_slot (cfg : SimulationConfig) (db : List DbRow)
    (sample : List String → List String) (desired_start : Int)
    (latest_start : Option Int) (duration : Int) (devices : List String)
    (exclude_operation_id : Option Nat)
    (include_pending_plans enforce_max_rest : Bool) : Option Slot :=
  (sample devices).foldl
    (find_slot_step cfg db include_pending_plans enforce_max_rest desired_start
      latest_start duration exclude_operation_id)
    none

/-- `OperationQueries.update_operation_status` applied to one row: `SET
proc_status = %s, real_start_time = COALESCE(%s, real_start_time),
real_end_time = COALESCE(%s, real_end_time), device_no = COALESCE(%s,
device_no)`.  The plan columns are not in the `SET` list. -/
def update_operation_status_row (r : DbRow) (proc_status : Nat)
    (real_start_time real_end_time : Option Int) (device_no : Option String) : DbRow :=
  { r with
    proc_status := proc_status,
    real_start_time := coalesce real_start_time r.real_start_time,
    real_end_time := coalesce real_end_time r.real_end_time,
    device_no := device_no.getD r.device_no }

/-- `OperationQueries.update_operation_status` on the whole table
(`WHERE id = %s`). -/
def update_operation_status (db : List DbRow) (operation_id : Nat) (proc_status : Nat)
    (real_start_time real_end_time : Option Int) (device_no : Option String) : List DbRow :=
  db.map (fun r =>
    if r.id = operation_id then
      update_operation_status_row r proc_status real_start_time real_end_time device_no
    else r)

/-- `OperationQueries.update_operation_plan_times` (`WHERE id = %s`). -/
def update_operation_plan_times (db : List DbRow) (operation_id : Nat)
    (plan_start_time plan_end_time : Int) : List DbRow :=
  db.map (fun r =>
    if r.id = operation_id then
      { r with plan_start_time := plan_start_time, plan_end_time := plan_end_time }
    else r)

/-- `OperationQueries.insert_operation`: append a row with the next serial id
(`RETURNING id`); returns the new table, the id, and the next serial value. -/
def insert_operation (db : List DbRow) (next_id : Nat) (heat_no : Nat) (proc_cd : String)
    (device_no : String) (proc_status : Nat) (plan_start_time plan_end_time : Int)
    (real_start_time real_end_time : Option Int) : List DbRow × Nat × Nat :=
  (db ++ [⟨next_id, heat_no, proc_cd, device_no, proc_status, plan_start_time,
    plan_end_time, real_start_time, real_end_time⟩], next_id, next_id + 1)

/-- `OperationQueries.get_pending_operations`: `WHERE proc_status = 2 ORDER BY
plan_start_time`. -/
def get_pending_operations (db : List DbRow) : List DbRow :=
  sortOn (fun r => r.plan_start_time)
    (db.filter (fun r => r.proc_status == ProcessStatus.PENDING))

/-- `OperationQueries.get_heat_operations`: `WHERE heat_no = %s ORDER BY
plan_start_time`. -/
def get_heat_operations (db : List DbRow) (heat_no : Nat) : List DbRow :=
  sortOn (fun r => r.plan_start_time)
    (db.filter (fun r => r.heat_no == heat_no))

/-- The common tail of both branches of
`OperationProcessor.process_pending_operations` (`operation_processor.py`,
lines 181-200 and 228-247): push plan times when the slot moved, reassign the
device when it changed, and when `now >= slot.plan_start` and the device is
free, set the item ACTIVE with `real_start_time = now`. -/
def apply_slot_and_start (is_device_available : String → Bool) (db : List DbRow)
    (now : Int) (op : DbRow) (slot : Slot) : List DbRow :=
  let db1 :=
    if slot.plan_start ≠ op.plan_start_time ∨ slot.plan_end ≠ op.plan_end_time then
      update_operation_plan_times db op.id slot.plan_start slot.plan_end
    else db
  let db2 :=
    if slot.device_no ≠ op.device_no then
      update_operation_status db1 op.id op.proc_status none none (some slot.device_no)
    else db1
  if now < slot.plan_start then db2
  else if is_device_available slot.device_no then
    update_operation_status db2 op.id ProcessStatus.ACTIVE (some now) none
      (some slot.device_no)
  else db2

/-- One iteration of the `for op in pending_ops` loop of
`OperationProcessor.process_pending_operations`.  Both `find_slot` calls pass
`include_pending_plans = true` and `enforce_max_rest = true`: the Python call
sites omit the keyword arguments, so the scheduler defaults apply. -/
def process_pending_op (cfg : SimulationConfig) (sample : List String → List String)
    (is_device_available : String → Bool) (db : List DbRow) (now : Int)
    (op : DbRow) : List DbRow :=
  let heat_ops := get_heat_operations db op.heat_no
  match PROCESS_FLOW.findIdx? (fun p => EQUIPMENT_proc_cd p == op.proc_cd) with
  | none => db
  | some 0 =>
    -- First stage (BOF) has no predecessor; start when plan time arrives.
    if now < op.plan_start_time then db
    else
      let duration := op.plan_end_time - op.plan_start_time
      let desired_start := max op.plan_start_time now
      -- Prefer the planned device, but allow cross-device reassignment if blocked.
      let slot0 := find_slot cfg db sample desired_start none duration [op.device_no]
        (some op.id) true true
      let slot := match slot0 with
        | some s => some s
        | none => find_slot cfg db sample desired_start none duration
            (EQUIPMENT_devices "BOF") (some op.id) true true
      match slot with
      | none => db
      | some slot => apply_slot_and_start is_device_available db now op slot
  | some (i + 1) =>
    let prev_proc_cd := EQUIPMENT_proc_cd (PROCESS_FLOW.getD i "")
    match heat_ops.find? (fun h => h.proc_cd == prev_proc_cd) with
    | none => db
    | some prev_op =>
      if prev_op.proc_status = ProcessStatus.COMPLETED then
        match prev_op.real_end_time with
        | none => db
        | some prev_real_end =>
          let proc_name := PROCESS_FLOW.getD (i + 1) ""
          let min_ready_time := prev_real_end + cfg.min_transfer_gap_minutes
          let max_ready_time := prev_real_end + cfg.max_transfer_gap_minutes
          let scheduled_start := max op.plan_start_time min_ready_time
          let duration := op.plan_end_time - op.plan_start_time
          match find_slot cfg db sample scheduled_start (some max_ready_time) duration
              (EQUIPMENT_devices proc_name) (some op.id) true true with
          | none => db
          | some slot => apply_slot_and_start is_device_available db now op slot
      else db

/-- `OperationProcessor.process_pending_operations`: fetch the pending items
once, then process each in order against the evolving table. -/
def process_pending_operations (cfg : SimulationConfig)
    (sample : List String → List String) (is_device_available : String → Bool)
    (db : List DbRow) (now : Int) : List DbRow :=
  (get_pending_operations db).foldl
    (fun acc op => process_pending_op cfg sample is_device_available acc now op) db

/-- The argument record of one `db.insert_operation` call made by
`HeatPlanner.create_new_heat` (one `planned` entry; metadata columns are
opaque to scheduling and omitted). -/
structure PlannedOp where
  process_name : String
  proc_cd : String
  device_no : String
  plan_start : Int
  plan_end : Int
  status : Nat
  real_start : Option Int
  real_end : Option Int
deriving Repr, DecidableEq

/-- The `for process_name in PROCESS_FLOW[1:]` loop of
`HeatPlanner.create_new_heat` (`heat_planner.py`): plan each later stage from
the previous stage's planned end, trying an aligned device first with the
configured probability; abort (`none`) as soon as one stage is infeasible.
`dur k`, `gap k`, `alignedR k` are the stage-`k` draws of
`get_random_duration`, `get_random_transfer_gap` and
`random.random() < aligned_route_probability`; `aligned_device` is the
injected context callable. -/
def plan_later_stages (cfg : SimulationConfig) (db : List DbRow)
    (sample : List String → List String) (aligned_device : String → String → Option String)
    (dur gap : Nat → Int) (alignedR : Nat → Bool) (bof_device : String) :
    Nat → Int → List String → Option (List PlannedOp)
  | _, _, [] => some []
  | k, prev_end, process_name :: names =>
    let proc_cd := EQUIPMENT_proc_cd process_name
    let duration := dur k
    let transfer_offset := gap k
    let desired_start := prev_end + transfer_offset
    let latest_start := prev_end + cfg.max_transfer_gap_minutes
    let preferred_device :=
      if alignedR k then aligned_device bof_device process_name else none
    let slot0 := match preferred_device with
      | some d => find_slot cfg db sample desired_start (some latest_start) duration [d]
          none true true
      | none => none
    let slot := match slot0 with
      | some s => some s
      | none => find_slot cfg db sample desired_start (some latest_start) duration
          (EQUIPMENT_devices process_name) none true true
    match slot with
    | none => none
    | some slot =>
      match plan_later_stages cfg db sample aligned_device dur gap alignedR bof_device
          (k + 1) slot.plan_end names with
      | none => none
      | some rest =>
        some (⟨process_name, proc_cd, slot.device_no, slot.plan_start, slot.plan_end,
          ProcessStatus.PENDING, none, none⟩ :: rest)

/-- `HeatPlanner.create_new_heat` (`heat_planner.py`): plan stage 1 anchored
at `now` over the full BOF pool (`desired_start = latest_start = now`), then
the later stages; only on full success is the `planned` list returned for
persistence (the source then inserts exactly these entries and returns the
heat number).  `none` models the early `return None` paths, on which no
`insert_operation` call has been made. -/
def create_new_heat (cfg : SimulationConfig) (db : List DbRow)
    (sample : List String → List String) (aligned_device : String → String → Option String)
    (dur gap : Nat → Int) (alignedR : Nat → Bool) (now : Int) : Option (List PlannedOp) :=
  let bof_duration := dur 0
  match find_slot cfg db sample now (some now) bof_duration (EQUIPMENT_devices "BOF")
      none true true with
  | none => none
  | some bof_slot =>
    let first : PlannedOp := ⟨"BOF", EQUIPMENT_proc_cd "BOF", bof_slot.device_no,
      bof_slot.plan_start, bof_slot.plan_end, ProcessStatus.ACTIVE,
      some bof_slot.plan_start, none⟩
    match plan_later_stages cfg db sample aligned_device dur gap alignedR
        bof_slot.device_no 1 bof_slot.plan_end PROCESS_FLOW.tail with
    | none => none
    | some rest => some (first :: rest)

/-- The injected random draws and external collaborators of
`OperationSeeder.seed_initial_timeline` (`seeding/seeder.py`).  `rest k` is
the `k`-th `random.randint(min_rest, max_rest)` draw, `dur k` the `k`-th
`get_random_duration()` draw, `uni k w` the `k`-th `random.uniform(0, w)`
draw, and `cancel op_id` the cancel outcome (`has_cancel` /
`cancel_event_time`) of the event engine's
`seed_historical_events_for_completed_operation` call for the operation with
id `op_id`.  A single counter `k` is advanced at every draw. -/
structure SeedRand where
  rest : Nat → Int
  dur : Nat → Int
  uni : Nat → Int → Int
  cancel : Nat → Option Int

/-- Outcome of one iteration of the `for _attempt in range(30)` loop of
`seed_initial_timeline`: the horizon `break` (when `bof_start > end_time`),
an infeasibility `continue`, or a placed workflow with the six computed
stage times. -/
inductive AttemptOutcome where
  | horizon (k : Nat)
  | infeasible (k : Nat)
  | placed (bof_start bof_end lf_start lf_end ccm_start ccm_end : Int) (k : Nat)
deriving Repr, DecidableEq

/-- One placement attempt of `seed_initial_timeline` (`seeding/seeder.py`
lines 74-105): pick the BOF start after the lineage's last BOF end with a
random rest, then derive the LF and CCM starts inside the intersection of
the transfer-gap window after the previous stage's end and the rest window
after the same device's last end.  `lasts` is
`(last_end_bof, last_end_lf, last_end_ccm)`. -/
def seed_attempt (cfg : SimulationConfig) (rand : SeedRand) (end_time : Int)
    (lasts : Option Int × Option Int × Option Int) (cursor : Int) (k : Nat) :
    AttemptOutcome :=
  let bof_rest := rand.rest k
  let bof_start := match lasts.1 with
    | none => cursor
    | some le => max cursor (le + bof_rest)
  let bof_duration := rand.dur (k + 1)
  let bof_end := bof_start + bof_duration
  if bof_start > end_time then .horizon (k + 2)
  else
    let lf_duration := rand.dur (k + 2)
    let lf_earliest0 := bof_end + cfg.min_transfer_gap_minutes
    let lf_latest0 := bof_end + cfg.max_transfer_gap_minutes
    let lf_earliest := match lasts.2.1 with
      | none => lf_earliest0
      | some le => max lf_earliest0 (le + cfg.min_rest_duration_minutes)
    let lf_latest := match lasts.2.1 with
      | none => lf_latest0
      | some le => min lf_latest0 (le + cfg.max_rest_duration_minutes)
    if lf_earliest > lf_latest then .infeasible (k + 3)
    else
      let lf_start := lf_earliest + rand.uni (k + 3) (lf_latest - lf_earliest)
      let lf_end := lf_start + lf_duration
      let ccm_duration := rand.dur (k + 4)
      let ccm_earliest0 := lf_end + cfg.min_transfer_gap_minutes
      let ccm_latest0 := lf_end + cfg.max_transfer_gap_minutes
      let ccm_earliest := match lasts.2.2 with
        | none => ccm_earliest0
        | some le => max ccm_earliest0 (le + cfg.min_rest_duration_minutes)
      let ccm_latest := match lasts.2.2 with
        | none => ccm_latest0
        | some le => min ccm_latest0 (le + cfg.max_rest_duration_minutes)
      if ccm_earliest > ccm_latest then .infeasible (k + 5)
      else
        let ccm_start := ccm_earliest + rand.uni (k + 5) (ccm_latest - ccm_earliest)
        let ccm_end := ccm_start + ccm_duration
        .placed bof_start bof_end lf_start lf_end ccm_start ccm_end (k + 6)

/-- The bounded retry loop (`for _attempt in range(30)`): stop on the first
placed workflow or on the horizon `break`; otherwise try again. -/
def seed_try_attempts (cfg : SimulationConfig) (rand : SeedRand) (end_time : Int)
    (lasts : Option Int × Option Int × Option Int) (cursor : Int) :
    Nat → Nat → Option (Int × Int × Int × Int × Int × Int) × Nat
  | 0, k => (none, k)
  | n + 1, k =>
    match seed_attempt cfg rand end_time lasts cursor k with
    | .horizon k' => (none, k')
    | .infeasible k' => seed_try_attempts cfg rand end_time lasts cursor n k'
    | .placed bs be ls le cs ce k' => (some (bs, be, ls, le, cs, ce), k')

/-- The status/real-time classification of one seeded stage
(`seeding/seeder.py` lines 119-134): a stage at or past a fired cancel is
CANCELED with null real times; otherwise fully-past stages are COMPLETED
with real times equal to plan times, stages straddling `now` are ACTIVE with
`real_start = plan_start`, and future stages are PENDING. -/
def seed_classify (now : Int) (canceled_from : Option Nat) (stage_idx : Nat)
    (plan_start plan_end : Int) : Nat × Option Int × Option Int :=
  match canceled_from with
  | some c =>
    if stage_idx ≥ c then (ProcessStatus.CANCELED, none, none)
    else seed_classify_plain now plan_start plan_end
  | none => seed_classify_plain now plan_start plan_end
where
  /-- The `elif` chain comparing the planned window to `now`. -/
  seed_classify_plain (now plan_start plan_end : Int) : Nat × Option Int × Option Int :=
    if plan_end ≤ now then (ProcessStatus.COMPLETED, some plan_start, some plan_end)
    else if plan_start ≤ now ∧ now < plan_end then
      (ProcessStatus.ACTIVE, some plan_start, none)
    else (ProcessStatus.PENDING, none, none)

/-- The `for stage_idx, ... in enumerate(stages)` loop of
`seed_initial_timeline` (lines 117-233): classify and insert each stage; for
a COMPLETED stage, the event engine may report a cancel, in which case the
just-inserted operation is updated to CANCELED (with
`real_end_time = cancel_event_time` through `update_operation_status`) and
`canceled_from_stage` is set so every later stage is inserted CANCELED.
The warning/event/KPI side content itself is external and writes no
operation rows. -/
def seed_insert_stages (rand : SeedRand) (now : Int) (heat_no : Nat) :
    List (String × String × Int × Int) → Nat → Option Nat → List DbRow → Nat →
    List DbRow × Nat
  | [], _, _, db, next_id => (db, next_id)
  | (proc_cd, device_no, plan_start, plan_end) :: rest, stage_idx, canceled_from,
      db, next_id =>
    let src := seed_classify now canceled_from stage_idx plan_start plan_end
    let (db', op_id, next_id') := insert_operation db next_id heat_no proc_cd device_no
      src.1 plan_start plan_end src.2.1 src.2.2
    let step : List DbRow × Option Nat :=
      if src.1 = ProcessStatus.COMPLETED then
        match rand.cancel op_id with
        | some cancel_time =>
          (update_operation_status db' op_id ProcessStatus.CANCELED none
            (some cancel_time) none, some stage_idx)
        | none => (db', canceled_from)
      else (db', canceled_from)
    seed_insert_stages rand now heat_no rest (stage_idx + 1) step.2 step.1 next_id'

/-- The lineage state threaded through the seeding loop: the operation table,
the next serial operation id, the next heat number
(`generate_heat_no` returns the stored monthly maximum plus one, so a skipped
iteration reuses the same number and the counter advances only on insert),
and the random-draw counter. -/
structure SeedState where
  db : List DbRow
  next_id : Nat
  next_heat_no : Nat
  k : Nat
deriving Repr, DecidableEq

/-- Outcome of one iteration of the `while cursor <= end_time` loop. -/
inductive SeedStepResult where
  | exit (st : SeedState)
  | placed (lasts : Option Int × Option Int × Option Int) (cursor : Int) (st : SeedState)
  | skipped (lasts : Option Int × Option Int × Option Int) (cursor : Int) (st : SeedState)
deriving Repr, DecidableEq

/-- One iteration of the per-lineage `while cursor <= end_time` loop of
`seed_initial_timeline` (lines 67-243): when the attempts place a workflow,
insert its stages, remember the three stage ends, and advance the cursor to
the BOF end plus a random rest; after the attempts fail (or the horizon
`break` fires), advance the cursor by exactly `max_rest`. -/
def seed_step (cfg : SimulationConfig) (rand : SeedRand) (now end_time : Int)
    (ldevs : String × String × String)
    (lasts : Option Int × Option Int × Option Int) (cursor : Int) (st : SeedState) :
    SeedStepResult :=
  if cursor > end_time then .exit st
  else
    let heat_no := st.next_heat_no
    match seed_try_attempts cfg rand end_time lasts cursor 30 st.k with
    | (none, k') =>
      .skipped lasts (cursor + cfg.max_rest_duration_minutes) { st with k := k' }
    | (some (bs, be, ls, le, cs, ce), k') =>
      let stages := [(EQUIPMENT_proc_cd "BOF", ldevs.1, bs, be),
        (EQUIPMENT_proc_cd "LF", ldevs.2.1, ls, le),
        (EQUIPMENT_proc_cd "CCM", ldevs.2.2, cs, ce)]
      let ins := seed_insert_stages rand now heat_no stages 0 none st.db st.next_id
      .placed (some be, some le, some ce) (be + rand.rest k')
        ⟨ins.1, ins.2, heat_no + 1, k' + 1⟩

/-- The per-lineage `while` loop, with explicit fuel; `none` means the fuel
was exhausted before `cursor` passed `end_time`. -/
def seed_lineage (cfg : SimulationConfig) (rand : SeedRand) (now end_time : Int)
    (ldevs : String × String × String) :
    Nat → Option Int × Option Int × Option Int → Int → SeedState → Option SeedState
  | 0, _, _, _ => none
  | fuel + 1, lasts, cursor, st =>
    match seed_step cfg rand now end_time ldevs lasts cursor st with
    | .exit st' => some st'
    | .placed lasts' cursor' st' =>
      seed_lineage cfg rand now end_time ldevs fuel lasts' cursor' st'
    | .skipped lasts' cursor' st' =>
      seed_lineage cfg rand now end_time ldevs fuel lasts' cursor' st'

/-- The `for line_idx, bof_device in enumerate(bof_devices)` loop: one lineage
per BOF device, aligned by index with the LF and CCM pools (falling back to
index 0 past the pool's end), each lineage starting with a fresh cursor and
fresh last-end markers. -/
def seed_lineages (cfg : SimulationConfig) (rand : SeedRand) (now start_time end_time : Int)
    (lf_devices ccm_devices : List String) (fuel : Nat) :
    List (Nat × String) → SeedState → Option SeedState
  | [], st => some st
  | (line_idx, bof_device) :: rest, st =>
    let lf_device := if line_idx < lf_devices.length then lf_devices.getD line_idx ""
      else lf_devices.getD 0 ""
    let ccm_device := if line_idx < ccm_devices.length then ccm_devices.getD line_idx ""
      else ccm_devices.getD 0 ""
    match seed_lineage cfg rand now end_time (bof_device, lf_device, ccm_device) fuel
        (none, none, none) start_time st with
    | none => none
    | some st' => seed_lineages cfg rand now start_time end_time lf_devices ccm_devices
        fuel rest st'

/-- `OperationSeeder.seed_initial_timeline` (`seeding/seeder.py`), starting
from the cleared table of `reset_demo_data`: walk every device lineage over
the past-to-future horizon.  Returns the final operation table, or `none` if
the per-lineage fuel did not cover the horizon. -/
def seed_initial_timeline (cfg : SimulationConfig) (rand : SeedRand) (fuel : Nat)
    (now : Int) : Option (List DbRow) :=
  let span_past := cfg.max_rest_duration_minutes * max cfg.seed_past_heats 4 + 180
  let span_future := cfg.max_rest_duration_minutes * max cfg.seed_future_heats 4 + 120
  let start_time := now - span_past
  let end_time := now + span_future
  match seed_lineages cfg rand now start_time end_time (EQUIPMENT_devices "LF")
      (EQUIPMENT_devices "CCM") fuel (EQUIPMENT_devices "BOF").enum ⟨[], 0, 1, 0⟩ with
  | none => none
  | some st => some st.db

/-- Modelled from the spec: the feasible start range of one gap, following
the spec's description of the slot search — the range lower bound is the
intersection of "(a) `desired_start` or later, (b) at least `min_rest` after
the previous window's end, (c') at least `max_rest + duration` before the
next window's start when the upper rest bound is enforced", and the range
upper bound is "(c) at most `max_rest` after the previous window's end, (d)
early enough that `start + duration` finishes at least `min_rest` before the
next window's start (the scheduler also keeps plain `next_start - duration`
as a bound)".  Used only to compare the code's gap walk against the spec's
wording for the selection-rule claim. -/
def spec_gap_range (min_rest : Int) (max_rest : Option Int) (desired_start duration : Int)
    (prev_end : Option Int) (next_start : Option Int) : Int × Option Int :=
  (gap_lower min_rest max_rest desired_start duration prev_end next_start,
   gap_upper min_rest max_rest duration prev_end next_start)

/-- Modelled from the spec: "the first gap (in chronological order) yielding
a non-empty range gives the selected start = the lower bound of that range",
walking the gaps (before-first, between consecutive windows, after-last) of
the sorted window list. -/
def spec_first_gap_start (min_rest : Int) (max_rest : Option Int)
    (desired_start duration : Int) : Option Int → List (Int × Int) → Option Int
  | prev_end, [] =>
    let r := spec_gap_range min_rest max_rest desired_start duration prev_end none
    match r.2 with
    | some u => if r.1 ≤ u then some r.1 else none
    | none => some r.1
  | prev_end, w :: rest =>
    let r := spec_gap_range min_rest max_rest desired_start duration prev_end (some w.1)
    match r.2 with
    | some u =>
      if r.1 ≤ u then some r.1
      else spec_first_gap_start min_rest max_rest desired_start duration (some w.2) rest
    | none => some r.1

/-- Concrete configuration used by the witness scenarios:
`min_operation_duration = 30`, `max_operation_duration = 50`,
transfer gap bounds `[20, 30]`, `max_rest = 20`, `min_rest = 3`. -/
def cfgW : SimulationConfig := ⟨30, 50, 20, 30, 20, 3, 4, 4⟩

/-- Witness table: one COMPLETED operation occupying `[0, 40]` on BOF device
`"G120"`. -/
def dbW : List DbRow :=
  [⟨1, 9, "G12", "G120", ProcessStatus.COMPLETED, 0, 40, some 0, some 40⟩]

/-- Failing-input table for the runtime-deadlock claim: every BOF device
carries a COMPLETED operation that ended at `-120` (two hours before
`now = 0`, far beyond `max_rest = 20`), and heat `1` has a PENDING BOF
operation on `"G120"` whose plan window `[-110, -80]` has long passed. -/
def dbDeadlock : List DbRow :=
  [⟨1, 101, "G12", "G120", ProcessStatus.COMPLETED, -155, -120, some (-155), some (-120)⟩,
   ⟨2, 102, "G12", "G121", ProcessStatus.COMPLETED, -155, -120, some (-155), some (-120)⟩,
   ⟨3, 103, "G12", "G122", ProcessStatus.COMPLETED, -155, -120, some (-155), some (-120)⟩,
   ⟨4, 1, "G12", "G120", ProcessStatus.PENDING, -110, -80, none, none⟩]

/-- Witness `aligned_device` context callable: index-aligned routing, as the
simulator wires it (`BOF#i -> LF#i -> CCM#i`). -/
def alignedW (bof_device : String) (process_name : String) : Option String :=
  match (EQUIPMENT_devices "BOF").indexOf? bof_device with
  | none => none
  | some i => (EQUIPMENT_devices process_name).getD i ""

/-- Witness seeding draws: rest 5, duration 35, uniform offset 0, a cancel
event only for operation id 1 (the LF stage of the first seeded heat, which
is fully in the past and hence COMPLETED before the cancel fires). -/
def randW : SeedRand :=
  ⟨fun _ => 5, fun _ => 35, fun _ _ => 0, fun i => if i = 1 then some 77 else none⟩

/-- Witness configuration for the seeding scenarios, with a short horizon
(`max_rest = 5`). -/
def cfgS : SimulationConfig := ⟨30, 50, 20, 30, 5, 3, 4, 4⟩

/-- The state carried by a `SeedStepResult`. -/
def SeedStepResult.state : SeedStepResult → SeedState
  | .exit st => st
  | .placed _ _ st => st
  | .skipped _ _ st => st

/-- Bookkeeping invariant of the seeding loop: stored ids are below the next
serial id, stored heat numbers are below the next heat number, and within
every heat (taken in stored stage order) cancellation propagates forward:
once a stage is CANCELED every later stage is CANCELED. -/
def seed_inv (st : SeedState) : Prop :=
  (∀ r ∈ st.db, r.id < st.next_id) ∧
  (∀ r ∈ st.db, r.heat_no < st.next_heat_no) ∧
  (∀ h : Nat, List.Pairwise
    (fun a b => a.proc_status = ProcessStatus.CANCELED →
      b.proc_status = ProcessStatus.CANCELED)
    (st.db.filter (fun r => r.heat_no == h)))

/-- Transfer-gap invariant of the seeding loop: within every heat (taken in
stored stage order) each consecutive stage pair keeps
`plan_start(next) - plan_end(prev)` inside the configured transfer-gap
bounds. -/
def seed_gap_inv (cfg : SimulationConfig) (st : SeedState) : Prop :=
  ∀ h : Nat, List.Chain'
    (fun a b => cfg.min_transfer_gap_minutes ≤ b.plan_start_time - a.plan_end_time ∧
      b.plan_start_time - a.plan_end_time ≤ cfg.max_transfer_gap_minutes)
    (st.db.filter (fun r => r.heat_no == h))

/-- Membership is preserved by sorted insertion. -/
theorem mem_insertOn {α : Type} (key : α → Int) (a x : α) :
    ∀ l : List α, x ∈ insertOn key a l ↔ x = a ∨ x ∈ l := by
  intro l
  induction l with
  | nil => simp [insertOn]
  | cons b l ih =>
    by_cases h : key a ≤ key b
    · simp [insertOn, h]
    · simp only [insertOn, if_neg h, List.mem_cons, ih]
      tauto

/-- Sorted insertion preserves sortedness by the key. -/
theorem sorted_insertOn {α : Type} (key : α → Int) (a : α) :
    ∀ l : List α, l.Sorted (fun x y => key x ≤ key y) →
      (insertOn key a l).Sorted (fun x y => key x ≤ key y) := by
  intro l
  induction l with
  | nil => intro _; simp [insertOn]
  | cons b l ih =>
    intro hs
    rw [List.sorted_cons] at hs
    by_cases h : key a ≤ key b
    · rw [insertOn, if_pos h, List.sorted_cons]
      refine ⟨?_, ?_⟩
      · intro y hy
        rcases List.mem_cons.mp hy with rfl | hy
        · exact h
        · exact le_trans h (hs.1 y hy)
      · rw [List.sorted_cons]
        exact hs
    · rw [insertOn, if_neg h, List.sorted_cons]
      refine ⟨?_, ih hs.2⟩
      intro y hy
      rcases (mem_insertOn key a y l).mp hy with rfl | hy
      · exact le_of_lt (lt_of_not_le h)
      · exact hs.1 y hy

/-- `sortOn` returns a list sorted by the key. -/
theorem sorted_sortOn {α : Type} (key : α → Int) :
    ∀ l : List α, (sortOn key l).Sorted (fun x y => key x ≤ key y) := by
  intro l
  induction l with
  | nil => simp [sortOn]
  | cons a l ih => exact sorted_insertOn key a _ ih

/-- `sortOn` preserves membership. -/
theorem mem_sortOn {α : Type} (key : α → Int) (x : α) :
    ∀ l : List α, x ∈ sortOn key l ↔ x ∈ l := by
  intro l
  induction l with
  | nil => simp [sortOn]
  | cons a l ih =>
    simp only [sortOn, mem_insertOn, List.mem_cons, ih]

/-- The gap lower bound is at least `desired_start`. -/
theorem gap_lower_ge_desired (min_rest : Int) (max_rest : Option Int)
    (desired_start duration : Int) (prev_end next_start : Option Int) :
    desired_start ≤ gap_lower min_rest max_rest desired_start duration prev_end next_start := by
  rcases prev_end with _ | p <;> rcases next_start with _ | n <;>
    rcases max_rest with _ | mr <;>
    simp [gap_lower, le_max_iff]

/-- With a previous window, the gap lower bound is at least
`prev_end + min_rest`. -/
theorem gap_lower_ge_prev (min_rest : Int) (max_rest : Option Int)
    (desired_start duration : Int) (p : Int) (next_start : Option Int) :
    p + min_rest ≤ gap_lower min_rest max_rest desired_start duration (some p) next_start := by
  rcases next_start with _ | n <;> rcases max_rest with _ | mr <;>
    simp [gap_lower, le_max_iff]

/-- With a next window, the gap upper bound is at most
`next_start - min_rest - duration`. -/
theorem gap_upper_le_next (min_rest : Int) (max_rest : Option Int) (duration : Int)
    (prev_end : Option Int) (n u : Int)
    (h : gap_upper min_rest max_rest duration prev_end (some n) = some u) :
    u ≤ n - min_rest - duration := by
  rcases prev_end with _ | p <;> rcases max_rest with _ | mr <;>
    simp [gap_upper] at h <;> simp [← h, min_le_iff]

/-- With a next window, the gap upper bound is at most
`next_start - duration`. -/
theorem gap_upper_le_next_fit (min_rest : Int) (max_rest : Option Int) (duration : Int)
    (prev_end : Option Int) (n u : Int)
    (h : gap_upper min_rest max_rest duration prev_end (some n) = some u) :
    u ≤ n - duration := by
  rcases prev_end with _ | p <;> rcases max_rest with _ | mr <;>
    simp [gap_upper] at h <;> simp [← h, min_le_iff]

/-- With a next window, the gap upper bound always exists. -/
theorem gap_upper_next_isSome (min_rest : Int) (max_rest : Option Int) (duration : Int)
    (prev_end : Option Int) (n : Int) :
    (gap_upper min_rest max_rest duration prev_end (some n)).isSome := by
  rcases prev_end with _ | p <;> rcases max_rest with _ | mr <;> simp [gap_upper]

/-- Soundness of the gap walk: a returned start is at least `desired_start`;
it is at least `min_rest` after the incoming `prev_end` whenever that end
precedes all remaining windows; and (for pairwise-disjoint, well-formed
windows) it keeps a `min_rest` gap to every window of the list — before the
window when the slot is placed in an earlier gap, after its end otherwise. -/
theorem search_gaps_spec (min_rest : Int) (max_rest : Option Int)
    (desired_start duration : Int) :
    ∀ (ws : List (Int × Int)) (pe : Option Int) (s : Int),
      List.Pairwise (fun a b => a.2 ≤ b.1) ws →
      (∀ w ∈ ws, w.1 ≤ w.2) →
      search_gaps min_rest max_rest desired_start duration pe ws = some s →
      desired_start ≤ s ∧
      (∀ p, pe = some p → (∀ w ∈ ws, p ≤ w.1) → p + min_rest ≤ s) ∧
      (∀ w ∈ ws, w.2 + min_rest ≤ s ∨ s + duration + min_rest ≤ w.1) := by
  intro ws
  induction ws with
  | nil =>
    intro pe s _ _ h
    rw [search_gaps] at h
    rcases hu : gap_upper min_rest max_rest duration pe none with _ | u <;>
      rw [hu] at h <;> dsimp only at h
    · cases h
      exact ⟨gap_lower_ge_desired _ _ _ _ _ _,
        fun p hp _ => by
          subst hp; exact gap_lower_ge_prev _ _ _ _ _ _,
        by simp⟩
    · split_ifs at h
      cases h
      exact ⟨gap_lower_ge_desired _ _ _ _ _ _,
        fun p hp _ => by
          subst hp; exact gap_lower_ge_prev _ _ _ _ _ _,
        by simp⟩
  | cons w rest ih =>
    intro pe s hpw hwf h
    have hpw' := List.pairwise_cons.mp hpw
    have hwf_head : w.1 ≤ w.2 := hwf w (List.mem_cons_self w rest)
    have hwf' : ∀ x ∈ rest, x.1 ≤ x.2 := fun x hx => hwf x (List.mem_cons_of_mem w hx)
    -- the skip outcome is handled uniformly
    have skip_case :
        search_gaps min_rest max_rest desired_start duration (some w.2) rest = some s →
        desired_start ≤ s ∧
        (∀ p, pe = some p → (∀ x ∈ w :: rest, p ≤ x.1) → p + min_rest ≤ s) ∧
        (∀ x ∈ w :: rest, x.2 + min_rest ≤ s ∨ s + duration + min_rest ≤ x.1) := by
      intro hrec
      obtain ⟨ih1, ih2, ih3⟩ := ih (some w.2) s hpw'.2 hwf' hrec
      have hw2 : w.2 + min_rest ≤ s :=
        ih2 w.2 rfl (fun x hx => hpw'.1 x hx)
      refine ⟨ih1, ?_, ?_⟩
      · intro p hp hall
        have hpw1 : p ≤ w.1 := hall w (List.mem_cons_self w rest)
        have : p ≤ w.2 := le_trans hpw1 hwf_head
        omega
      · intro x hx
        rcases List.mem_cons.mp hx with rfl | hx
        · exact Or.inl hw2
        · exact ih3 x hx
    rw [search_gaps] at h
    rcases hu : gap_upper min_rest max_rest duration pe (some w.1) with _ | u <;>
      rw [hu] at h <;> dsimp only at h
    · have hcontra := gap_upper_next_isSome min_rest max_rest duration pe w.1
      rw [hu] at hcontra
      simp at hcontra
    · split_ifs at h with h1 h2
      · exact skip_case h
      · exact skip_case h
      · -- success in this gap
        cases h
        have hnext := gap_upper_le_next min_rest max_rest duration pe w.1 u hu
        refine ⟨gap_lower_ge_desired _ _ _ _ _ _,
          fun p hp _ => by
            subst hp; exact gap_lower_ge_prev _ _ _ _ _ _, ?_⟩
        intro x hx
        rcases List.mem_cons.mp hx with rfl | hx
        · right; omega
        · right
          have hww : w.2 ≤ x.1 := hpw'.1 x hx
          omega

/-- Shape of a per-device slot: its device, its end (`plan_start + duration`),
the `latest_start` cutoff, and its start being the device's candidate. -/
theorem device_slot_spec (cfg : SimulationConfig) (db : List DbRow) (ipp emr : Bool)
    (desired_start : Int) (latest_start : Option Int) (duration : Int)
    (excl : Option Nat) (d : String) (slot : Slot)
    (h : device_slot cfg db ipp emr desired_start latest_start duration excl d = some slot) :
    slot.device_no = d ∧ slot.plan_end = slot.plan_start + duration ∧
    (∀ l, latest_start = some l → slot.plan_start ≤ l) ∧
    device_candidate cfg db ipp emr desired_start duration excl d = some slot.plan_start := by
  rw [device_slot] at h
  rcases hc : device_candidate cfg db ipp emr desired_start duration excl d with _ | s0 <;>
    rw [hc] at h <;> dsimp only at h
  · cases h
  · rcases latest_start with _ | l <;> dsimp only at h
    · cases h
      exact ⟨rfl, rfl, by simp, rfl⟩
    · split_ifs at h with h1
      cases h
      refine ⟨rfl, rfl, ?_, rfl⟩
      intro l' hl'
      cases hl'
      show s0 ≤ l
      omega

/-- `find_slot_step` keeps the accumulator when the device yields nothing. -/
theorem find_slot_step_none (cfg : SimulationConfig) (db : List DbRow) (ipp emr : Bool)
    (desired_start : Int) (latest_start : Option Int) (duration : Int)
    (excl : Option Nat) (acc : Option Slot) (d : String)
    (h : device_slot cfg db ipp emr desired_start latest_start duration excl d = none) :
    find_slot_step cfg db ipp emr desired_start latest_start duration excl acc d = acc := by
  rw [find_slot_step, h]

/-- `find_slot_step` adopts the first produced slot. -/
theorem find_slot_step_first (cfg : SimulationConfig) (db : List DbRow) (ipp emr : Bool)
    (desired_start : Int) (latest_start : Option Int) (duration : Int)
    (excl : Option Nat) (d : String) (s0 : Slot)
    (h : device_slot cfg db ipp emr desired_start latest_start duration excl d = some s0) :
    find_slot_step cfg db ipp emr desired_start latest_start duration excl none d =
      some s0 := by
  rw [find_slot_step, h]

/-- `find_slot_step` keeps the chronologically earlier of two slots. -/
theorem find_slot_step_min (cfg : SimulationConfig) (db : List DbRow) (ipp emr : Bool)
    (desired_start : Int) (latest_start : Option Int) (duration : Int)
    (excl : Option Nat) (d : String) (s0 b : Slot)
    (h : device_slot cfg db ipp emr desired_start latest_start duration excl d = some s0) :
    find_slot_step cfg db ipp emr desired_start latest_start duration excl (some b) d =
      if s0.plan_start < b.plan_start then some s0 else some b := by
  rw [find_slot_step, h]

/-- The fold of `find_slot_step` returns a slot produced by one of the folded
devices (or the initial accumulator) and its start is minimal among the
accumulator and every per-device slot. -/
theorem find_slot_foldl_spec (cfg : SimulationConfig) (db : List DbRow) (ipp emr : Bool)
    (desired_start : Int) (latest_start : Option Int) (duration : Int)
    (excl : Option Nat) :
    ∀ (l : List String) (acc : Option Slot) (slot : Slot),
      l.foldl (find_slot_step cfg db ipp emr desired_start latest_start duration excl)
        acc = some slot →
      (acc = some slot ∨ ∃ d ∈ l,
        device_slot cfg db ipp emr desired_start latest_start duration excl d = some slot) ∧
      (∀ b, acc = some b → slot.plan_start ≤ b.plan_start) ∧
      (∀ d ∈ l, ∀ s0,
        device_slot cfg db ipp emr desired_start latest_start duration excl d = some s0 →
        slot.plan_start ≤ s0.plan_start) := by
  intro l
  induction l with
  | nil =>
    intro acc slot h
    have h' : acc = some slot := h
    subst h'
    refine ⟨Or.inl rfl, ?_, by simp⟩
    intro b hb
    cases hb
    exact le_refl _
  | cons d l ih =>
    intro acc slot h
    rw [List.foldl_cons] at h
    obtain ⟨ih1, ih2, ih3⟩ := ih _ slot h
    have tail_mem : ∀ d' ∈ l, ∀ s0,
        device_slot cfg db ipp emr desired_start latest_start duration excl d' = some s0 →
        slot.plan_start ≤ s0.plan_start := ih3
    rcases hd : device_slot cfg db ipp emr desired_start latest_start duration excl d
      with _ | s0
    · rw [find_slot_step_none cfg db ipp emr desired_start latest_start duration excl acc d hd]
        at ih1 ih2
      refine ⟨?_, ih2, ?_⟩
      · rcases ih1 with h1 | ⟨d', hd', hds'⟩
        · exact Or.inl h1
        · exact Or.inr ⟨d', List.mem_cons_of_mem d hd', hds'⟩
      · intro d' hd' s1 hds1
        rcases List.mem_cons.mp hd' with rfl | hmem
        · rw [hd] at hds1; cases hds1
        · exact tail_mem d' hmem s1 hds1
    · rcases acc with _ | b
      · rw [find_slot_step_first cfg db ipp emr desired_start latest_start duration excl
          d s0 hd] at ih1 ih2
        refine ⟨?_, by simp, ?_⟩
        · rcases ih1 with h1 | ⟨d', hd', hds'⟩
          · cases h1
            exact Or.inr ⟨d, List.mem_cons_self d l, hd⟩
          · exact Or.inr ⟨d', List.mem_cons_of_mem d hd', hds'⟩
        · intro d' hd' s1 hds1
          rcases List.mem_cons.mp hd' with rfl | hmem
          · rw [hd] at hds1
            cases hds1
            exact ih2 s0 rfl
          · exact tail_mem d' hmem s1 hds1
      · rw [find_slot_step_min cfg db ipp emr desired_start latest_start duration excl
          d s0 b hd] at ih1 ih2
        by_cases hlt : s0.plan_start < b.plan_start
        · rw [if_pos hlt] at ih1 ih2
          refine ⟨?_, ?_, ?_⟩
          · rcases ih1 with h1 | ⟨d', hd', hds'⟩
            · cases h1
              exact Or.inr ⟨d, List.mem_cons_self d l, hd⟩
            · exact Or.inr ⟨d', List.mem_cons_of_mem d hd', hds'⟩
          · intro b' hb'
            cases hb'
            have := ih2 s0 rfl
            omega
          · intro d' hd' s1 hds1
            rcases List.mem_cons.mp hd' with rfl | hmem
            · rw [hd] at hds1
              cases hds1
              exact ih2 s0 rfl
            · exact tail_mem d' hmem s1 hds1
        · rw [if_neg hlt] at ih1 ih2
          refine ⟨?_, ?_, ?_⟩
          · rcases ih1 with h1 | ⟨d', hd', hds'⟩
            · exact Or.inl h1
            · exact Or.inr ⟨d', List.mem_cons_of_mem d hd', hds'⟩
          · intro b' hb'
            cases hb'
            exact ih2 b rfl
          · intro d' hd' s1 hds1
            rcases List.mem_cons.mp hd' with rfl | hmem
            · rw [hd] at hds1
              cases hds1
              have := ih2 b rfl
              omega
            · exact tail_mem d' hmem s1 hds1

/-- A slot returned by `find_slot` comes from one of the sampled devices and
has the minimal start among every per-device slot. -/
theorem find_slot_spec (cfg : SimulationConfig) (db : List DbRow)
    (sample : List String → List String) (desired_start : Int)
    (latest_start : Option Int) (duration : Int) (devices : List String)
    (excl : Option Nat) (ipp emr : Bool) (slot : Slot)
    (h : find_slot cfg db sample desired_start latest_start duration devices excl
      ipp emr = some slot) :
    (∃ d ∈ sample devices,
      device_slot cfg db ipp emr desired_start latest_start duration excl d = some slot) ∧
    (∀ d ∈ sample devices, ∀ s0,
      device_slot cfg db ipp emr desired_start latest_start duration excl d = some s0 →
      slot.plan_start ≤ s0.plan_start) := by
  rw [find_slot] at h
  obtain ⟨h1, _, h3⟩ := find_slot_foldl_spec cfg db ipp emr desired_start latest_start
    duration excl (sample devices) none slot h
  refine ⟨?_, h3⟩
  rcases h1 with h1 | h1
  · cases h1
  · exact h1

/-- C2 — Scheduler slot validity: for every call to `find_slot` that returns
a slot, assuming the considered windows of the chosen device are pairwise
non-overlapping (well-formed, chronologically disjoint intervals) and the
configured minimum rest is non-negative, the returned slot satisfies
`plan_end = plan_start + duration`, `plan_start >= desired_start`,
`plan_start <= latest_start` when given, and the slot keeps a gap of at
least `min_rest_duration_minutes` to every considered window on the chosen
device (in particular to the adjacent previous window's end and the adjacent
next window's start) and overlaps none of them. -/
theorem find_slot_slot_valid (cfg : SimulationConfig) (db : List DbRow)
    (sample : List String → List String) (desired_start : Int)
    (latest_start : Option Int) (duration : Int) (devices : List String)
    (excl : Option Nat) (ipp emr : Bool) (slot : Slot)
    (hmin : 0 ≤ cfg.min_rest_duration_minutes)
    (hfs : find_slot cfg db sample desired_start latest_start duration devices excl
      ipp emr = some slot)
    (hdisj : (get_device_windows db slot.device_no excl ipp).Pairwise
      (fun a b => a.2 ≤ b.1))
    (hwf : ∀ w ∈ get_device_windows db slot.device_no excl ipp, w.1 ≤ w.2) :
    slot.plan_end = slot.plan_start + duration ∧
    desired_start ≤ slot.plan_start ∧
    (∀ l, latest_start = some l → slot.plan_start ≤ l) ∧
    ∀ w ∈ get_device_windows db slot.device_no excl ipp,
      (w.2 + cfg.min_rest_duration_minutes ≤ slot.plan_start ∨
        slot.plan_start + duration + cfg.min_rest_duration_minutes ≤ w.1) ∧
      ¬(w.1 < slot.plan_end ∧ slot.plan_start < w.2) := by
  obtain ⟨⟨d, _, hds⟩, _⟩ := find_slot_spec cfg db sample desired_start latest_start
    duration devices excl ipp emr slot hfs
  obtain ⟨hdev, hend, hlat, hcand⟩ := device_slot_spec cfg db ipp emr desired_start
    latest_start duration excl d slot hds
  subst hdev
  rw [device_candidate] at hcand
  obtain ⟨h1, _, h3⟩ := search_gaps_spec cfg.min_rest_duration_minutes
    (if emr then some cfg.max_rest_duration_minutes else none) desired_start duration
    (get_device_windows db slot.device_no excl ipp) none slot.plan_start hdisj hwf hcand
  refine ⟨hend, h1, hlat, ?_⟩
  intro w hw
  have hgap := h3 w hw
  have hwfw := hwf w hw
  constructor
  · exact hgap
  · intro ⟨ha, hb⟩
    rw [hend] at ha
    omega

/-- Witness for the slot-validity theorem: with one window `[0, 40]` on
`"G120"`, `desired_start = 10`, `duration = 20` and `min_rest = 3`,
`find_slot` returns the slot `[43, 63]`, which starts `min_rest` after the
window's end and overlaps nothing. -/
theorem find_slot_slot_valid_witness :
    ((0 : Int) ≤ cfgW.min_rest_duration_minutes ∧
      (get_device_windows dbW "G120" none true).Pairwise (fun a b => a.2 ≤ b.1) ∧
      (∀ w ∈ get_device_windows dbW "G120" none true, w.1 ≤ w.2) ∧
      find_slot cfgW dbW id 10 none 20 ["G120"] none true true =
        some ⟨"G120", 43, 63⟩) ∧
    ((63 : Int) = 43 + 20 ∧ (10 : Int) ≤ 43 ∧
      ∀ w ∈ get_device_windows dbW "G120" none true,
        (w.2 + cfgW.min_rest_duration_minutes ≤ 43 ∨
          43 + 20 + cfgW.min_rest_duration_minutes ≤ w.1) ∧
        ¬(w.1 < 63 ∧ 43 < w.2)) := by
  have h := find_slot_slot_valid cfgW dbW id 10 none 20 ["G120"] none true true
    ⟨"G120", 43, 63⟩ (by decide) (by decide) (by decide) (by decide)
  exact ⟨⟨by decide, by decide, by decide, by decide⟩, h.1, h.2.1,
    fun w hw => h.2.2.2 w hw⟩

/-- The code's gap walk equals the spec-worded rule "the first gap whose
feasible range is non-empty gives the selected start = the lower bound of
that range": the code's extra `lower + duration > next_start` test is
redundant because the range's upper bound already includes
`next_start - duration`. -/
theorem search_gaps_eq_spec (min_rest : Int) (max_rest : Option Int)
    (desired_start duration : Int) :
    ∀ (ws : List (Int × Int)) (pe : Option Int),
      search_gaps min_rest max_rest desired_start duration pe ws =
        spec_first_gap_start min_rest max_rest desired_start duration pe ws := by
  intro ws
  induction ws with
  | nil =>
    intro pe
    rw [search_gaps, spec_first_gap_start]
    rcases hu : gap_upper min_rest max_rest duration pe none with _ | u <;>
      simp only [spec_gap_range, hu]
    split_ifs with h1 h2 <;> first | rfl | omega
  | cons w rest ih =>
    intro pe
    rw [search_gaps, spec_first_gap_start]
    rcases hu : gap_upper min_rest max_rest duration pe (some w.1) with _ | u <;>
      simp only [spec_gap_range, hu]
    · have hcontra := gap_upper_next_isSome min_rest max_rest duration pe w.1
      rw [hu] at hcontra
      simp at hcontra
    · have hfit := gap_upper_le_next_fit min_rest max_rest duration pe w.1 u hu
      split_ifs with h1 h2 h3 <;> first | rfl | exact ih _ | omega

/-- C4 — Scheduler selection rule: when `find_slot` returns a slot, its
start is a per-device candidate start (of the chosen device, which also
passes the `latest_start` cutoff) and is chronologically earliest among all
per-device slots; and every device's candidate start equals the lower bound
of the feasible range of the first chronological gap (including before-first
and after-last) whose feasible range is non-empty, as worded by the spec. -/
theorem find_slot_selection_rule (cfg : SimulationConfig) (db : List DbRow)
    (sample : List String → List String) (desired_start : Int)
    (latest_start : Option Int) (duration : Int) (devices : List String)
    (excl : Option Nat) (ipp emr : Bool) (slot : Slot)
    (hfs : find_slot cfg db sample desired_start latest_start duration devices excl
      ipp emr = some slot) :
    (∃ d ∈ sample devices, slot.device_no = d ∧
      device_candidate cfg db ipp emr desired_start duration excl d =
        some slot.plan_start ∧
      (∀ l, latest_start = some l → slot.plan_start ≤ l)) ∧
    (∀ d ∈ sample devices, ∀ s0,
      device_slot cfg db ipp emr desired_start latest_start duration excl d = some s0 →
      slot.plan_start ≤ s0.plan_start) ∧
    (∀ d, device_candidate cfg db ipp emr desired_start duration excl d =
      spec_first_gap_start cfg.min_rest_duration_minutes
        (if emr then some cfg.max_rest_duration_minutes else none)
        desired_start duration none (get_device_windows db d excl ipp)) := by
  obtain ⟨⟨d, hmem, hds⟩, hmins⟩ := find_slot_spec cfg db sample desired_start
    latest_start duration devices excl ipp emr slot hfs
  obtain ⟨hdev, _, hlat, hcand⟩ := device_slot_spec cfg db ipp emr desired_start
    latest_start duration excl d slot hds
  refine ⟨⟨d, hmem, hdev, hcand, hlat⟩, hmins, ?_⟩
  intro d'
  rw [device_candidate, search_gaps_eq_spec]

/-- Witness for the selection rule: with `"G120"` occupied on `[0, 40]` and
`"G121"` free, desired start `10` and duration `20`, the candidates are `43`
and `10`, and `find_slot` picks the earlier start `10` on `"G121"`. -/
theorem find_slot_selection_rule_witness :
    (find_slot cfgW dbW id 10 none 20 ["G120", "G121"] none true true =
      some ⟨"G121", 10, 30⟩ ∧
      device_candidate cfgW dbW true true 10 20 none "G120" = some 43 ∧
      device_candidate cfgW dbW true true 10 20 none "G121" = some 10) ∧
    (∃ d ∈ id ["G120", "G121"], (Slot.mk "G121" 10 30).device_no = d ∧
      device_candidate cfgW dbW true true 10 20 none d = some 10 ∧
      (∀ l, (none : Option Int) = some l → (10 : Int) ≤ l)) ∧
    (∀ d ∈ id ["G120", "G121"], ∀ s0,
      device_slot cfgW dbW true true 10 none 20 none d = some s0 →
      (10 : Int) ≤ s0.plan_start) ∧
    (∀ d, device_candidate cfgW dbW true true 10 20 none d =
      spec_first_gap_start cfgW.min_rest_duration_minutes
        (some cfgW.max_rest_duration_minutes) 10 20 none
        (get_device_windows dbW d none true)) := by
  have h := find_slot_selection_rule cfgW dbW id 10 none 20 ["G120", "G121"] none
    true true ⟨"G121", 10, 30⟩ (by decide)
  exact ⟨⟨by decide, by decide, by decide⟩, h.1, h.2.1, h.2.2⟩

/-- C8 counterexample: `find_slot` called with the negative duration `-5`
and a free device does NOT return `None` — it returns the degenerate slot
`("G120", 0, -5)` whose `plan_end` precedes its `plan_start`.  The source has
no guard on `duration`. -/
theorem find_slot_degenerate_duration_counterexample :
    (-5 : Int) ≤ 0 ∧
    find_slot cfgW [] id 0 none (-5) ["G120"] none true true =
      some ⟨"G120", 0, -5⟩ := ⟨by decide, by decide⟩

/-- C8 amended — Degenerate-duration behaviour: `find_slot` never raises (it
is a total function of its inputs), but with a zero or negative duration it
may still return a slot; every slot it returns satisfies
`plan_end = plan_start + duration`, hence `plan_end ≤ plan_start` for such
durations. -/
theorem find_slot_degenerate_duration (cfg : SimulationConfig) (db : List DbRow)
    (sample : List String → List String) (desired_start : Int)
    (latest_start : Option Int) (duration : Int) (devices : List String)
    (excl : Option Nat) (ipp emr : Bool) (slot : Slot)
    (hdur : duration ≤ 0)
    (hfs : find_slot cfg db sample desired_start latest_start duration devices excl
      ipp emr = some slot) :
    slot.plan_end = slot.plan_start + duration ∧ slot.plan_end ≤ slot.plan_start := by
  obtain ⟨⟨d, _, hds⟩, _⟩ := find_slot_spec cfg db sample desired_start latest_start
    duration devices excl ipp emr slot hfs
  obtain ⟨_, hend, _, _⟩ := device_slot_spec cfg db ipp emr desired_start
    latest_start duration excl d slot hds
  exact ⟨hend, by omega⟩

/-- Witness for the amended degenerate-duration theorem at duration `-5`. -/
theorem find_slot_degenerate_duration_witness :
    ((-5 : Int) ≤ 0 ∧
      find_slot cfgW [] id 0 none (-5) ["G120"] none true true =
        some ⟨"G120", 0, -5⟩) ∧
    ((-5 : Int) = 0 + (-5) ∧ (-5 : Int) ≤ 0) := by
  have h := find_slot_degenerate_duration cfgW [] id 0 none (-5) ["G120"] none
    true true ⟨"G120", 0, -5⟩ (by decide) (by decide)
  exact ⟨⟨by decide, by decide⟩, h.1, h.2⟩

/-- C10 — Canceled and completed items still block scheduling: `find_slot`
fetches windows with a `datetime.min` lookback, so
`get_device_operation_windows` returns every non-excluded operation of the
device whose effective end exists (regardless of status), and
`_normalize_window` keeps every non-PENDING row; hence (for well-formed,
pairwise-disjoint considered windows and non-negative `min_rest`) a returned
slot never overlaps the effective window of a CANCELED or COMPLETED
operation on the chosen device. -/
theorem find_slot_blocks_canceled_completed (cfg : SimulationConfig) (db : List DbRow)
    (sample : List String → List String) (desired_start : Int)
    (latest_start : Option Int) (duration : Int) (devices : List String)
    (excl : Option Nat) (ipp emr : Bool) (slot : Slot) (r : DbRow)
    (hmin : 0 ≤ cfg.min_rest_duration_minutes)
    (hfs : find_slot cfg db sample desired_start latest_start duration devices excl
      ipp emr = some slot)
    (hdisj : (get_device_windows db slot.device_no excl ipp).Pairwise
      (fun a b => a.2 ≤ b.1))
    (hwf : ∀ w ∈ get_device_windows db slot.device_no excl ipp, w.1 ≤ w.2)
    (hr : r ∈ db) (hrd : r.device_no = slot.device_no)
    (hrex : ∀ e, excl = some e → r.id ≠ e)
    (hst : r.proc_status = ProcessStatus.CANCELED ∨
      r.proc_status = ProcessStatus.COMPLETED) :
    (∀ r' ∈ db, r'.device_no = slot.device_no → (∀ e, excl = some e → r'.id ≠ e) →
      r' ∈ get_device_operation_windows db slot.device_no none excl) ∧
    (r.real_start_time.getD r.plan_start_time,
      r.real_end_time.getD r.plan_end_time) ∈
      get_device_windows db slot.device_no excl ipp ∧
    ¬(r.real_start_time.getD r.plan_start_time < slot.plan_end ∧
      slot.plan_start < r.real_end_time.getD r.plan_end_time) := by
  have hmatch : ∀ r' : DbRow, r'.device_no = slot.device_no →
      (∀ e, excl = some e → r'.id ≠ e) →
      window_row_matches slot.device_no none excl r' = true := by
    intro r' hd' hex'
    rcases excl with _ | e
    · simp [window_row_matches, hd']
    · simp [window_row_matches, hd', hex' e rfl]
  have hfetch : ∀ r' ∈ db, r'.device_no = slot.device_no →
      (∀ e, excl = some e → r'.id ≠ e) →
      r' ∈ get_device_operation_windows db slot.device_no none excl := by
    intro r' hr' hd' hex'
    rw [get_device_operation_windows, mem_sortOn]
    exact List.mem_filter.mpr ⟨hr', hmatch r' hd' hex'⟩
  have hnorm : normalize_window ipp r =
      some (r.real_start_time.getD r.plan_start_time,
        r.real_end_time.getD r.plan_end_time) := by
    rw [normalize_window, if_neg]
    intro ⟨_, hpend, _⟩
    rcases hst with hc | hc <;> rw [hc] at hpend <;> cases hpend
  have hwmem : (r.real_start_time.getD r.plan_start_time,
      r.real_end_time.getD r.plan_end_time) ∈
      get_device_windows db slot.device_no excl ipp := by
    rw [get_device_windows, mem_sortOn]
    exact List.mem_filterMap.mpr ⟨r, hfetch r hr hrd hrex, hnorm⟩
  obtain ⟨hend, _, _, hwin⟩ := find_slot_slot_valid cfg db sample desired_start
    latest_start duration devices excl ipp emr slot hmin hfs hdisj hwf
  refine ⟨hfetch, hwmem, ?_⟩
  have := (hwin _ hwmem).2
  rw [hend] at this ⊢
  exact this

/-- Witness: a CANCELED operation occupying `[0, 40]` on `"G120"` is still
fetched and normalized, and the returned slot `[43, 63]` clears it. -/
theorem find_slot_blocks_canceled_completed_witness :
    ((0 : Int) ≤ cfgW.min_rest_duration_minutes ∧
      find_slot cfgW
        [⟨1, 9, "G12", "G120", ProcessStatus.CANCELED, 0, 40, some 0, some 40⟩]
        id 10 none 20 ["G120"] none true true = some ⟨"G120", 43, 63⟩) ∧
    ((0 : Int), (40 : Int)) ∈ get_device_windows
      [⟨1, 9, "G12", "G120", ProcessStatus.CANCELED, 0, 40, some 0, some 40⟩]
      "G120" none true ∧
    ¬((0 : Int) < 63 ∧ (43 : Int) < 40) := by
  have h := find_slot_blocks_canceled_completed cfgW
    [⟨1, 9, "G12", "G120", ProcessStatus.CANCELED, 0, 40, some 0, some 40⟩]
    id 10 none 20 ["G120"] none true true ⟨"G120", 43, 63⟩
    ⟨1, 9, "G12", "G120", ProcessStatus.CANCELED, 0, 40, some 0, some 40⟩
    (by decide) (by decide) (by decide) (by decide)
    (by decide) (by decide) (by simp) (by decide)
  exact ⟨⟨by decide, by decide⟩, h.2.1, h.2.2⟩

/-- C9 — Status updates never erase recorded facts:
`update_operation_status` sets the status, leaves `plan_start_time` and
`plan_end_time` untouched (they are not in the SQL `SET` list), keeps the
stored `real_start_time` / `real_end_time` / `device_no` when `None` is
passed (COALESCE semantics), and its result column is null exactly when both
the argument and the stored value were null — so no status transition can
clear an already-set real timestamp or device assignment. -/
theorem update_operation_status_frame (r : DbRow) (p : Nat) (rs re : Option Int)
    (dev : Option String) :
    (update_operation_status_row r p rs re dev).proc_status = p ∧
    (update_operation_status_row r p rs re dev).plan_start_time = r.plan_start_time ∧
    (update_operation_status_row r p rs re dev).plan_end_time = r.plan_end_time ∧
    (update_operation_status_row r p rs re dev).real_start_time =
      coalesce rs r.real_start_time ∧
    (update_operation_status_row r p rs re dev).real_end_time =
      coalesce re r.real_end_time ∧
    (update_operation_status_row r p none re dev).real_start_time =
      r.real_start_time ∧
    (update_operation_status_row r p rs none dev).real_end_time =
      r.real_end_time ∧
    (update_operation_status_row r p rs re none).device_no = r.device_no ∧
    (update_operation_status_row r p rs re dev).real_start_time.isNone =
      (rs.isNone && r.real_start_time.isNone) ∧
    (update_operation_status_row r p rs re dev).real_end_time.isNone =
      (re.isNone && r.real_end_time.isNone) := by
  refine ⟨rfl, rfl, rfl, rfl, rfl, rfl, rfl, rfl, ?_, ?_⟩ <;>
    rcases rs with _ | v <;> rcases re with _ | v' <;>
    simp [update_operation_status_row, coalesce]

/-- C1 — Runtime non-deadlock FAILS on the code: at `now = 0`, heat 1's
first-stage operation (id 4) is PENDING with `plan_start = -110 ≤ now`, its
device `"G120"` is free, and every BOF device has been idle since `-120` —
far longer than `max_rest = 20`.  The relaxed scheduler search the spec
describes (`enforce_upper_rest_bound = false`,
`consider_unstarted_future_plans = false`) would return a slot starting at
`now`, but `process_pending_operations` calls `find_slot` with the strict
defaults, finds no slot on any device, and leaves the table unchanged — the
operation is never started (a permanent stall), contradicting the spec, the
scheduler's own docstring, and the repository test
`test_pending_bof_can_start_after_excess_idle_time`. -/
theorem process_pending_deadlock_eval :
    ((-110 : Int) ≤ 0 ∧
      (0 : Int) - (-120) > cfgW.max_rest_duration_minutes ∧
      find_slot cfgW dbDeadlock id 0 none 30 ["G120"] (some 4) false false =
        some ⟨"G120", 0, 30⟩) ∧
    find_slot cfgW dbDeadlock id 0 none 30 ["G120"] (some 4) true true = none ∧
    find_slot cfgW dbDeadlock id 0 none 30 (EQUIPMENT_devices "BOF") (some 4)
      true true = none ∧
    process_pending_operations cfgW id (fun _ => true) dbDeadlock 0 = dbDeadlock ∧
    (dbDeadlock.filter (fun r => r.id == 4)).map
      (fun r => (r.proc_status, r.real_start_time)) =
      [(ProcessStatus.PENDING, none)] := by
  refine ⟨⟨by decide, by decide, by decide⟩, by decide, by decide, ?_, by decide⟩
  decide

/-- The gap walk never selects a start before `desired_start`
(no side conditions needed). -/
theorem search_gaps_ge_desired (min_rest : Int) (max_rest : Option Int)
    (desired_start duration : Int) :
    ∀ (ws : List (Int × Int)) (pe : Option Int) (s : Int),
      search_gaps min_rest max_rest desired_start duration pe ws = some s →
      desired_start ≤ s := by
  intro ws
  induction ws with
  | nil =>
    intro pe s h
    rw [search_gaps] at h
    rcases hu : gap_upper min_rest max_rest duration pe none with _ | u <;>
      rw [hu] at h <;> dsimp only at h
    · cases h
      exact gap_lower_ge_desired _ _ _ _ _ _
    · split_ifs at h
      cases h
      exact gap_lower_ge_desired _ _ _ _ _ _
  | cons w rest ih =>
    intro pe s h
    rw [search_gaps] at h
    rcases hu : gap_upper min_rest max_rest duration pe (some w.1) with _ | u <;>
      rw [hu] at h <;> dsimp only at h
    · split_ifs at h
      · exact ih _ _ h
      · cases h
        exact gap_lower_ge_desired _ _ _ _ _ _
    · split_ifs at h
      · exact ih _ _ h
      · exact ih _ _ h
      · cases h
        exact gap_lower_ge_desired _ _ _ _ _ _

/-- A slot returned by `find_slot` starts no earlier than `desired_start`
and no later than `latest_start` (when given). -/
theorem find_slot_start_bounds (cfg : SimulationConfig) (db : List DbRow)
    (sample : List String → List String) (desired_start : Int)
    (latest_start : Option Int) (duration : Int) (devices : List String)
    (excl : Option Nat) (ipp emr : Bool) (slot : Slot)
    (hfs : find_slot cfg db sample desired_start latest_start duration devices excl
      ipp emr = some slot) :
    desired_start ≤ slot.plan_start ∧
    (∀ l, latest_start = some l → slot.plan_start ≤ l) ∧
    slot.plan_end = slot.plan_start + duration := by
  obtain ⟨⟨d, _, hds⟩, _⟩ := find_slot_spec cfg db sample desired_start latest_start
    duration devices excl ipp emr slot hfs
  obtain ⟨_, hend, hlat, hcand⟩ := device_slot_spec cfg db ipp emr desired_start
    latest_start duration excl d slot hds
  rw [device_candidate] at hcand
  exact ⟨search_gaps_ge_desired _ _ _ _ _ _ _ hcand, hlat, hend⟩

/-- Every stage entry produced by the later-stage planning loop is PENDING
with null real times, and the entries follow the requested stage list. -/
theorem plan_later_stages_spec (cfg : SimulationConfig) (db : List DbRow)
    (sample : List String → List String)
    (aligned_device : String → String → Option String) (dur gap : Nat → Int)
    (alignedR : Nat → Bool) (bof_device : String) :
    ∀ (names : List String) (k : Nat) (prev_end : Int) (rest : List PlannedOp),
      plan_later_stages cfg db sample aligned_device dur gap alignedR bof_device
        k prev_end names = some rest →
      rest.map (fun e => e.proc_cd) = names.map EQUIPMENT_proc_cd ∧
      ∀ e ∈ rest, e.status = ProcessStatus.PENDING ∧ e.real_start = none ∧
        e.real_end = none := by
  intro names
  induction names with
  | nil =>
    intro k prev_end rest h
    rw [plan_later_stages] at h
    cases h
    exact ⟨rfl, by simp⟩
  | cons name names ih =>
    intro k prev_end rest h
    rw [plan_later_stages] at h
    rcases hslot : (match (if alignedR k then aligned_device bof_device name else none)
        with
      | some d => find_slot cfg db sample (prev_end + gap k)
          (some (prev_end + cfg.max_transfer_gap_minutes)) (dur k) [d] none true true
      | none => none) with _ | s0
    · rw [hslot] at h
      dsimp only at h
      rcases hfall : find_slot cfg db sample (prev_end + gap k)
          (some (prev_end + cfg.max_transfer_gap_minutes)) (dur k)
          (EQUIPMENT_devices name) none true true with _ | slot <;>
        rw [hfall] at h <;> dsimp only at h
      · cases h
      · rcases hrec : plan_later_stages cfg db sample aligned_device dur gap alignedR
            bof_device (k + 1) slot.plan_end names with _ | entries <;>
          rw [hrec] at h <;> dsimp only at h
        · cases h
        · cases h
          obtain ⟨ihm, ihp⟩ := ih (k + 1) slot.plan_end entries hrec
          refine ⟨by simp [ihm], ?_⟩
          intro e he
          rcases List.mem_cons.mp he with rfl | he
          · exact ⟨rfl, rfl, rfl⟩
          · exact ihp e he
    · rw [hslot] at h
      dsimp only at h
      rcases hrec : plan_later_stages cfg db sample aligned_device dur gap alignedR
          bof_device (k + 1) s0.plan_end names with _ | entries <;>
        rw [hrec] at h <;> dsimp only at h
      · cases h
      · cases h
        obtain ⟨ihm, ihp⟩ := ih (k + 1) s0.plan_end entries hrec
        refine ⟨by simp [ihm], ?_⟩
        intro e he
        rcases List.mem_cons.mp he with rfl | he
        · exact ⟨rfl, rfl, rfl⟩
        · exact ihp e he

/-- C3 — Heat-planner atomicity and initial statuses:
`HeatPlanner.create_new_heat` either returns `none` — on which path no
`insert_operation` call has been made, the planner persists only the
returned `planned` list after the full loop succeeds — or returns exactly
one planned operation per stage of `PROCESS_FLOW`, where the stage-1 entry
is ACTIVE with `plan_start = now`, `real_start = now` and null `real_end`,
and every later stage is PENDING with both real times null. -/
theorem create_new_heat_atomic (cfg : SimulationConfig) (db : List DbRow)
    (sample : List String → List String)
    (aligned_device : String → String → Option String) (dur gap : Nat → Int)
    (alignedR : Nat → Bool) (now : Int) :
    create_new_heat cfg db sample aligned_device dur gap alignedR now = none ∨
    ∃ first rest,
      create_new_heat cfg db sample aligned_device dur gap alignedR now =
        some (first :: rest) ∧
      (first :: rest).length = PROCESS_FLOW.length ∧
      (first :: rest).map (fun e => e.proc_cd) = PROCESS_FLOW.map EQUIPMENT_proc_cd ∧
      first.status = ProcessStatus.ACTIVE ∧
      first.plan_start = now ∧ first.real_start = some now ∧ first.real_end = none ∧
      ∀ e ∈ rest, e.status = ProcessStatus.PENDING ∧ e.real_start = none ∧
        e.real_end = none := by
  rcases hbof : find_slot cfg db sample now (some now) (dur 0)
      (EQUIPMENT_devices "BOF") none true true with _ | bof_slot
  · left
    rw [create_new_heat, hbof]
  · rcases hrest : plan_later_stages cfg db sample aligned_device dur gap alignedR
        bof_slot.device_no 1 bof_slot.plan_end PROCESS_FLOW.tail with _ | rest
    · left
      rw [create_new_heat, hbof]
      dsimp only
      rw [hrest]
    · right
      obtain ⟨hge, hle, _⟩ := find_slot_start_bounds cfg db sample now (some now)
        (dur 0) (EQUIPMENT_devices "BOF") none true true bof_slot hbof
      have hps : bof_slot.plan_start = now := le_antisymm (hle now rfl) hge
      obtain ⟨hm, hp⟩ := plan_later_stages_spec cfg db sample aligned_device dur gap
        alignedR bof_slot.device_no PROCESS_FLOW.tail 1 bof_slot.plan_end rest hrest
    
      have hlen : rest.length = PROCESS_FLOW.tail.length := by
        have := congrArg List.length hm
        simpa using this
      refine ⟨⟨"BOF", EQUIPMENT_proc_cd "BOF", bof_slot.device_no,
        bof_slot.plan_start, bof_slot.plan_end, ProcessStatus.ACTIVE,
        some bof_slot.plan_start, none⟩, rest, ?_, ?_, ?_, rfl, hps,
        by rw [hps], rfl, hp⟩
      · rw [create_new_heat, hbof]
        dsimp only
        rw [hrest]
      · simp only [List.length_cons, hlen]
        rfl
      · simp only [List.map_cons]
        rw [hm]
        rfl

/-- `update_operation_status` distributes over list append. -/
theorem update_operation_status_append (l1 l2 : List DbRow) (oid : Nat) (p : Nat)
    (rs re : Option Int) (dev : Option String) :
    update_operation_status (l1 ++ l2) oid p rs re dev =
      update_operation_status l1 oid p rs re dev ++
      update_operation_status l2 oid p rs re dev := by
  rw [update_operation_status, List.map_append]
  rfl

/-- `update_operation_status` is the identity on a table that does not
contain the target id. -/
theorem update_operation_status_fresh (db : List DbRow) (oid : Nat) (p : Nat)
    (rs re : Option Int) (dev : Option String)
    (h : ∀ r ∈ db, r.id ≠ oid) :
    update_operation_status db oid p rs re dev = db := by
  induction db with
  | nil => rfl
  | cons r rest ih =>
    rw [update_operation_status, List.map_cons, if_neg (h r (List.mem_cons_self r rest))]
    have := ih (fun r' hr' => h r' (List.mem_cons_of_mem r hr'))
    rw [update_operation_status] at this
    rw [this]

/-- Updating the single freshly inserted row. -/
theorem update_operation_status_singleton (row : DbRow) (p : Nat)
    (rs re : Option Int) (dev : Option String) :
    update_operation_status [row] row.id p rs re dev =
      [update_operation_status_row row p rs re dev] := by
  rw [update_operation_status, List.map_cons, if_pos rfl]
  rfl

/-- The plain classification never yields CANCELED. -/
theorem seed_classify_plain_ne_canceled (now plan_start plan_end : Int) :
    (seed_classify.seed_classify_plain now plan_start plan_end).1 ≠
      ProcessStatus.CANCELED := by
  rw [seed_classify.seed_classify_plain]
  split_ifs <;>
    simp [ProcessStatus.COMPLETED, ProcessStatus.ACTIVE, ProcessStatus.PENDING,
      ProcessStatus.CANCELED]

/-- The classification once a cancel has fired at stage `c ≤ stage_idx`. -/
theorem seed_classify_canceled (now plan_start plan_end : Int) (c stage_idx : Nat)
    (h : c ≤ stage_idx) :
    seed_classify now (some c) stage_idx plan_start plan_end =
      (ProcessStatus.CANCELED, none, none) := by
  rw [seed_classify, if_pos h]

/-- Equations of a placed seeding attempt: the BOF start respects the cursor
and horizon, each later stage's start is drawn inside a feasible interval
that lies within the transfer-gap window after the previous stage's end, and
the random counter advances by six. -/
theorem seed_attempt_placed_eqs (cfg : SimulationConfig) (rand : SeedRand)
    (end_time : Int) (lasts : Option Int × Option Int × Option Int)
    (cursor : Int) (k : Nat) (bs be ls le cs ce : Int) (k' : Nat)
    (h : seed_attempt cfg rand end_time lasts cursor k =
      .placed bs be ls le cs ce k') :
    ∃ lfE lfL ccmE ccmL : Int,
      cursor ≤ bs ∧ bs ≤ end_time ∧ be = bs + rand.dur (k + 1) ∧
      be + cfg.min_transfer_gap_minutes ≤ lfE ∧
      lfL ≤ be + cfg.max_transfer_gap_minutes ∧ lfE ≤ lfL ∧
      ls = lfE + rand.uni (k + 3) (lfL - lfE) ∧ le = ls + rand.dur (k + 2) ∧
      le + cfg.min_transfer_gap_minutes ≤ ccmE ∧
      ccmL ≤ le + cfg.max_transfer_gap_minutes ∧ ccmE ≤ ccmL ∧
      cs = ccmE + rand.uni (k + 5) (ccmL - ccmE) ∧ ce = cs + rand.dur (k + 4) ∧
      k' = k + 6 := by
  obtain ⟨lb, ll, lc⟩ := lasts
  rw [seed_attempt] at h
  dsimp only at h
  split_ifs at h with h1 h2 h3
  cases h
  refine ⟨_, _, _, _, ?_, ?_, rfl, ?_, ?_, ?_, rfl, rfl, ?_, ?_, ?_, rfl, rfl, rfl⟩
  · rcases lb with _ | vb
    · exact le_refl _
    · exact le_max_left _ _
  · omega
  · rcases ll with _ | vl
    · exact le_refl _
    · exact le_max_left _ _
  · rcases ll with _ | vl
    · exact le_refl _
    · exact min_le_left _ _
  · omega
  · rcases lc with _ | vc
    · exact le_refl _
    · exact le_max_left _ _
  · rcases lc with _ | vc
    · exact le_refl _
    · exact min_le_left _ _
  · omega

/-- A successful retry loop outcome comes from one placed attempt. -/
theorem seed_try_attempts_placed (cfg : SimulationConfig) (rand : SeedRand)
    (end_time : Int) (lasts : Option Int × Option Int × Option Int) (cursor : Int) :
    ∀ (n : Nat) (k : Nat) (bs be ls le cs ce : Int) (k' : Nat),
      seed_try_attempts cfg rand end_time lasts cursor n k =
        (some (bs, be, ls, le, cs, ce), k') →
      ∃ k0, seed_attempt cfg rand end_time lasts cursor k0 =
        .placed bs be ls le cs ce k' := by
  intro n
  induction n with
  | zero =>
    intro k bs be ls le cs ce k' h
    rw [seed_try_attempts] at h
    cases h
  | succ n ih =>
    intro k bs be ls le cs ce k' h
    rw [seed_try_attempts] at h
    cases ha : seed_attempt cfg rand end_time lasts cursor k with
    | horizon k0 =>
      simp [ha] at h
    | infeasible k0 =>
      simp only [ha] at h
      exact ih k0 bs be ls le cs ce k' h
    | placed bs0 be0 ls0 le0 cs0 ce0 k0 =>
      simp only [ha, Prod.mk.injEq, Option.some.injEq] at h
      obtain ⟨⟨rfl, rfl, rfl, rfl, rfl, rfl⟩, rfl⟩ := h
      exact ⟨k, ha⟩

/-- One stage-insertion pass of the seeder: the table grows by exactly one
row per requested stage; the new rows carry the heat number and the computed
plan times; their ids are the fresh serial range; once a cancel has fired
every row is CANCELED; and cancellation propagates forward through the new
rows. -/
theorem seed_insert_stages_spec (rand : SeedRand) (now : Int) (heat_no : Nat) :
    ∀ (stages : List (String × String × Int × Int)) (idx : Nat) (cf : Option Nat)
      (db : List DbRow) (nid : Nat),
      (∀ r ∈ db, r.id < nid) →
      (∀ c, cf = some c → c ≤ idx) →
      ∃ newrows : List DbRow,
        seed_insert_stages rand now heat_no stages idx cf db nid =
          (db ++ newrows, nid + stages.length) ∧
        newrows.map (fun r => (r.heat_no, r.plan_start_time, r.plan_end_time)) =
          stages.map (fun st => (heat_no, st.2.2.1, st.2.2.2)) ∧
        (∀ r ∈ newrows, nid ≤ r.id ∧ r.id < nid + stages.length ∧
          r.heat_no = heat_no) ∧
        (∀ c, cf = some c → ∀ r ∈ newrows, r.proc_status = ProcessStatus.CANCELED) ∧
        List.Pairwise (fun a b => a.proc_status = ProcessStatus.CANCELED →
          b.proc_status = ProcessStatus.CANCELED) newrows := by
  intro stages
  induction stages with
  | nil =>
    intro idx cf db nid _ _
    refine ⟨[], ?_, rfl, by simp, by simp, by simp⟩
    rw [seed_insert_stages]
    simp
  | cons stage rest ih =>
    intro idx cf db nid hfresh hcf
    obtain ⟨proc_cd, device_no, plan_start, plan_end⟩ := stage
    rw [seed_insert_stages]
    dsimp only
    set src := seed_classify now cf idx plan_start plan_end with hsrc
    set row : DbRow := ⟨nid, heat_no, proc_cd, device_no, src.1, plan_start, plan_end,
      src.2.1, src.2.2⟩ with hrow
    have hins : insert_operation db nid heat_no proc_cd device_no src.1 plan_start
        plan_end src.2.1 src.2.2 = (db ++ [row], nid, nid + 1) := rfl
    rw [hins]
    dsimp only
    -- the step outcome: the updated table and the propagated cancel marker
    by_cases hcompleted : src.1 = ProcessStatus.COMPLETED
    · rcases hcancel : rand.cancel nid with _ | ct
      · -- completed, no cancel event
        rw [if_pos hcompleted]
        dsimp only
        obtain ⟨newrows', heq, hmap, hids, hallc, hpw⟩ := ih (idx + 1) cf (db ++ [row])
          (nid + 1)
          (by
            intro r hr
            rcases List.mem_append.mp hr with hr | hr
            · exact lt_trans (hfresh r hr) (by omega)
            · rcases List.mem_singleton.mp hr with rfl
              simp [hrow])
          (by intro c hc; exact le_trans (hcf c hc) (by omega))
        refine ⟨row :: newrows', ?_, ?_, ?_, ?_, ?_⟩
        · rw [heq]
          simp [List.append_assoc]
          omega
        · simp [hmap, hrow]
        · intro r hr
          rcases List.mem_cons.mp hr with rfl | hr
          · refine ⟨le_refl _, ?_, rfl⟩
            show nid < nid + ((proc_cd, device_no, plan_start, plan_end) :: rest).length
            simp only [List.length_cons]
            omega
          · have := hids r hr
            simp only [List.length_cons]
            refine ⟨by omega, by omega, this.2.2⟩
        · intro c hc r hr
          rcases List.mem_cons.mp hr with rfl | hr
          · -- a pending cancel marker forces CANCELED classification
            have hcle := hcf c hc
            show src.1 = ProcessStatus.CANCELED
            rw [hsrc, hc, seed_classify_canceled now plan_start plan_end c idx hcle]
          · exact hallc c hc r hr
        · rw [List.pairwise_cons]
          refine ⟨?_, hpw⟩
          intro r hr hcanc
          have hcanc1 : src.1 = ProcessStatus.CANCELED := hcanc
          rcases hc0 : cf with _ | c
          · -- no cancel marker: the classification is plain, never CANCELED
            rw [hsrc, hc0, seed_classify] at hcanc1
            exact absurd hcanc1
              (seed_classify_plain_ne_canceled now plan_start plan_end)
          · exact hallc c hc0 r hr
      · -- completed and a cancel event fires: the fresh row is overridden
        rw [if_pos hcompleted]
        dsimp only
        have hupd : update_operation_status (db ++ [row]) nid ProcessStatus.CANCELED
            none (some ct) none =
            db ++ [update_operation_status_row row ProcessStatus.CANCELED none
              (some ct) none] := by
          rw [update_operation_status_append]
          rw [update_operation_status_fresh db nid _ _ _ _
            (fun r hr => Nat.ne_of_lt (hfresh r hr))]
          have : row.id = nid := rfl
          rw [← this, update_operation_status_singleton]
        rw [hupd]
        set row' := update_operation_status_row row ProcessStatus.CANCELED none
          (some ct) none with hrow'
        obtain ⟨newrows', heq, hmap, hids, hallc, hpw⟩ := ih (idx + 1) (some idx)
          (db ++ [row']) (nid + 1)
          (by
            intro r hr
            rcases List.mem_append.mp hr with hr | hr
            · exact lt_trans (hfresh r hr) (by omega)
            · rcases List.mem_singleton.mp hr with rfl
              simp [hrow', update_operation_status_row, hrow])
          (by intro c hc; cases hc; omega)
        refine ⟨row' :: newrows', ?_, ?_, ?_, ?_, ?_⟩
        · rw [heq]
          simp [List.append_assoc]
          omega
        · simp [hmap, hrow', update_operation_status_row, hrow]
        · intro r hr
          rcases List.mem_cons.mp hr with rfl | hr
          · refine ⟨le_refl _, ?_, rfl⟩
            show nid < nid + ((proc_cd, device_no, plan_start, plan_end) :: rest).length
            simp only [List.length_cons]
            omega
          · have := hids r hr
            simp only [List.length_cons]
            refine ⟨by omega, by omega, this.2.2⟩
        · intro c hc r hr
          rcases List.mem_cons.mp hr with rfl | hr
          · simp [hrow', update_operation_status_row]
          · exact hallc idx rfl r hr
        · rw [List.pairwise_cons]
          exact ⟨fun r hr _ => hallc idx rfl r hr, hpw⟩
    · -- not completed: no event seeding, marker unchanged
      rw [if_neg hcompleted]
      dsimp only
      obtain ⟨newrows', heq, hmap, hids, hallc, hpw⟩ := ih (idx + 1) cf (db ++ [row])
        (nid + 1)
        (by
          intro r hr
          rcases List.mem_append.mp hr with hr | hr
          · exact lt_trans (hfresh r hr) (by omega)
          · rcases List.mem_singleton.mp hr with rfl
            simp [hrow])
        (by intro c hc; exact le_trans (hcf c hc) (by omega))
      refine ⟨row :: newrows', ?_, ?_, ?_, ?_, ?_⟩
      · rw [heq]
        simp [List.append_assoc]
        omega
      · simp [hmap, hrow]
      · intro r hr
        rcases List.mem_cons.mp hr with rfl | hr
        · refine ⟨le_refl _, ?_, rfl⟩
          simp only [List.length_cons]
          omega
        · have := hids r hr
          simp only [List.length_cons]
          refine ⟨by omega, by omega, this.2.2⟩
      · intro c hc r hr
        rcases List.mem_cons.mp hr with rfl | hr
        · have hcle := hcf c hc
          show src.1 = ProcessStatus.CANCELED
          rw [hsrc, hc, seed_classify_canceled now plan_start plan_end c idx hcle]
        · exact hallc c hc r hr
      · rw [List.pairwise_cons]
        refine ⟨?_, hpw⟩
        intro r hr hcanc
        have hcanc1 : src.1 = ProcessStatus.CANCELED := hcanc
        rcases hc0 : cf with _ | c
        · rw [hsrc, hc0, seed_classify] at hcanc1
          exact absurd hcanc1
            (seed_classify_plain_ne_canceled now plan_start plan_end)
        · exact hallc c hc0 r hr

/-- One loop iteration of the seeder preserves the bookkeeping invariant
(fresh ids, bounded heat numbers, forward cancellation) — no assumption on
the random draws is needed. -/
theorem seed_step_preserves_inv (cfg : SimulationConfig) (rand : SeedRand)
    (now end_time : Int) (ldevs : String × String × String)
    (lasts : Option Int × Option Int × Option Int) (cursor : Int) (st : SeedState)
    (hinv : seed_inv st) :
    seed_inv (seed_step cfg rand now end_time ldevs lasts cursor st).state := by
  rw [seed_step]
  by_cases hc : cursor > end_time
  · rw [if_pos hc]
    exact hinv
  · rw [if_neg hc]
    dsimp only
    rcases htry : seed_try_attempts cfg rand end_time lasts cursor 30 st.k with
      ⟨res, k'⟩
    rcases res with _ | ⟨bs, be, ls, le, cs, ce⟩
    · dsimp only
      exact hinv
    · dsimp only
      obtain ⟨hfresh, hheat, hcanc⟩ := hinv
      obtain ⟨newrows, heq, hmap, hids, _, hpw⟩ :=
        seed_insert_stages_spec rand now st.next_heat_no
          [(EQUIPMENT_proc_cd "BOF", ldevs.1, bs, be),
           (EQUIPMENT_proc_cd "LF", ldevs.2.1, ls, le),
           (EQUIPMENT_proc_cd "CCM", ldevs.2.2, cs, ce)]
          0 none st.db st.next_id hfresh (by intro c hc0; cases hc0)
      rw [heq]
      dsimp only [SeedStepResult.state]
      have hmemh : ∀ r ∈ newrows, r.heat_no = st.next_heat_no :=
        fun r hr => (hids r hr).2.2
      refine ⟨?_, ?_, ?_⟩
      · intro r hr
        rcases List.mem_append.mp hr with hr | hr
        · have := hfresh r hr
          show r.id < st.next_id +
            ([(EQUIPMENT_proc_cd "BOF", ldevs.1, bs, be),
              (EQUIPMENT_proc_cd "LF", ldevs.2.1, ls, le),
              (EQUIPMENT_proc_cd "CCM", ldevs.2.2, cs, ce)]).length
          simp only [List.length_cons, List.length_nil]
          omega
        · have := (hids r hr).2.1
          simpa using this
      · intro r hr
        rcases List.mem_append.mp hr with hr | hr
        · have := hheat r hr
          show r.heat_no < st.next_heat_no + 1
          omega
        · have := (hids r hr).2.2
          show r.heat_no < st.next_heat_no + 1
          omega
      · intro h
        rw [List.filter_append]
        by_cases hh : h = st.next_heat_no
        · have hold : st.db.filter (fun r => r.heat_no == h) = [] := by
            rw [List.filter_eq_nil]
            intro r hr
            have := hheat r hr
            simp only [beq_iff_eq]
            omega
          have hnew : List.filter (fun r => r.heat_no == h) newrows = newrows := by
            rw [List.filter_eq_self]
            intro r hr
            simp only [beq_iff_eq]
            rw [hmemh r hr, hh]
          rw [hold, hnew, List.nil_append]
          exact hpw
        · have hnew : List.filter (fun r => r.heat_no == h) newrows = [] := by
            rw [List.filter_eq_nil]
            intro r hr
            simp only [beq_iff_eq]
            rw [hmemh r hr]
            omega
          rw [hnew, List.append_nil]
          exact hcanc h

/-- One loop iteration of the seeder preserves the transfer-gap invariant,
assuming the uniform draws fall inside their requested interval. -/
theorem seed_step_preserves_gap (cfg : SimulationConfig) (rand : SeedRand)
    (now end_time : Int) (ldevs : String × String × String)
    (huni : ∀ k w, 0 ≤ w → 0 ≤ rand.uni k w ∧ rand.uni k w ≤ w)
    (lasts : Option Int × Option Int × Option Int) (cursor : Int) (st : SeedState)
    (hinv : seed_inv st) (hgapinv : seed_gap_inv cfg st) :
    seed_gap_inv cfg (seed_step cfg rand now end_time ldevs lasts cursor st).state := by
  rw [seed_step]
  by_cases hc : cursor > end_time
  · rw [if_pos hc]
    exact hgapinv
  · rw [if_neg hc]
    dsimp only
    rcases htry : seed_try_attempts cfg rand end_time lasts cursor 30 st.k with
      ⟨res, k'⟩
    rcases res with _ | ⟨bs, be, ls, le, cs, ce⟩
    · dsimp only
      exact hgapinv
    · dsimp only
      obtain ⟨k0, hatt⟩ := seed_try_attempts_placed cfg rand end_time lasts cursor
        30 st.k bs be ls le cs ce k' htry
      obtain ⟨lfE, lfL, ccmE, ccmL, _, _, _, hlfE, hlfL, hlfEL, hls, _, hccmE, hccmL,
        hccmEL, hcs, _, _⟩ := seed_attempt_placed_eqs cfg rand end_time lasts cursor
        k0 bs be ls le cs ce k' hatt
      have huni1 := huni (k0 + 3) (lfL - lfE) (by omega)
      have huni2 := huni (k0 + 5) (ccmL - ccmE) (by omega)
      obtain ⟨hfresh, hheat, hcanc⟩ := hinv
      obtain ⟨newrows, heq, hmap, hids, _, _⟩ :=
        seed_insert_stages_spec rand now st.next_heat_no
          [(EQUIPMENT_proc_cd "BOF", ldevs.1, bs, be),
           (EQUIPMENT_proc_cd "LF", ldevs.2.1, ls, le),
           (EQUIPMENT_proc_cd "CCM", ldevs.2.2, cs, ce)]
          0 none st.db st.next_id hfresh (by intro c hc0; cases hc0)
      rw [heq]
      dsimp only [SeedStepResult.state]
      obtain ⟨r1, r2, r3, rfl⟩ : ∃ a b c, newrows = [a, b, c] := by
        have hlen : newrows.length = 3 := by
          have := congrArg List.length hmap
          simpa using this
        match newrows, hlen with
        | [a, b, c], _ => exact ⟨a, b, c, rfl⟩
      simp only [List.map_cons, List.map_nil, List.cons.injEq, Prod.mk.injEq,
        and_true] at hmap
      obtain ⟨⟨hh1, hp1, he1⟩, ⟨hh2, hp2, he2⟩, ⟨hh3, hp3, he3⟩⟩ := hmap
      have hmem3 : ∀ r, r ∈ [r1, r2, r3] → r.heat_no = st.next_heat_no := by
        intro r hr
        rcases List.mem_cons.mp hr with rfl | hr
        · exact hh1
        rcases List.mem_cons.mp hr with rfl | hr
        · exact hh2
        rcases List.mem_cons.mp hr with rfl | hr
        · exact hh3
        · cases hr
      intro h
      rw [List.filter_append]
      by_cases hh : h = st.next_heat_no
      · have hold : st.db.filter (fun r => r.heat_no == h) = [] := by
          rw [List.filter_eq_nil]
          intro r hr
          have := hheat r hr
          simp only [beq_iff_eq]
          omega
        have hnew : List.filter (fun r => r.heat_no == h) [r1, r2, r3] =
            [r1, r2, r3] := by
          rw [List.filter_eq_self]
          intro r hr
          simp only [beq_iff_eq]
          rw [hmem3 r hr, hh]
        rw [hold, hnew, List.nil_append]
        rw [List.chain'_cons, List.chain'_cons]
        refine ⟨?_, ?_, List.chain'_singleton r3⟩
        · rw [hp2, he1]
          omega
        · rw [hp3, he2]
          omega
      · have hnew : List.filter (fun r => r.heat_no == h) [r1, r2, r3] = [] := by
          rw [List.filter_eq_nil]
          intro r hr
          simp only [beq_iff_eq]
          rw [hmem3 r hr]
          omega
        rw [hnew, List.append_nil]
        exact hgapinv h

/-- The per-lineage loop preserves the bookkeeping invariant. -/
theorem seed_lineage_preserves_inv (cfg : SimulationConfig) (rand : SeedRand)
    (now end_time : Int) (ldevs : String × String × String) :
    ∀ (fuel : Nat) (lasts : Option Int × Option Int × Option Int) (cursor : Int)
      (st st' : SeedState),
      seed_inv st →
      seed_lineage cfg rand now end_time ldevs fuel lasts cursor st = some st' →
      seed_inv st' := by
  intro fuel
  induction fuel with
  | zero =>
    intro lasts cursor st st' _ h
    rw [seed_lineage] at h
    cases h
  | succ fuel ih =>
    intro lasts cursor st st' hinv h
    rw [seed_lineage] at h
    have hpres := seed_step_preserves_inv cfg rand now end_time ldevs lasts cursor
      st hinv
    cases hstep : seed_step cfg rand now end_time ldevs lasts cursor st with
    | exit st1 =>
      rw [hstep] at h hpres
      cases h
      exact hpres
    | placed l1 c1 st1 =>
      rw [hstep] at h hpres
      exact ih l1 c1 st1 st' hpres h
    | skipped l1 c1 st1 =>
      rw [hstep] at h hpres
      exact ih l1 c1 st1 st' hpres h

/-- The per-lineage loop preserves the transfer-gap invariant. -/
theorem seed_lineage_preserves_gap (cfg : SimulationConfig) (rand : SeedRand)
    (now end_time : Int) (ldevs : String × String × String)
    (huni : ∀ k w, 0 ≤ w → 0 ≤ rand.uni k w ∧ rand.uni k w ≤ w) :
    ∀ (fuel : Nat) (lasts : Option Int × Option Int × Option Int) (cursor : Int)
      (st st' : SeedState),
      seed_inv st → seed_gap_inv cfg st →
      seed_lineage cfg rand now end_time ldevs fuel lasts cursor st = some st' →
      seed_gap_inv cfg st' := by
  intro fuel
  induction fuel with
  | zero =>
    intro lasts cursor st st' _ _ h
    rw [seed_lineage] at h
    cases h
  | succ fuel ih =>
    intro lasts cursor st st' hinv hgap h
    rw [seed_lineage] at h
    have hpres1 := seed_step_preserves_inv cfg rand now end_time ldevs lasts cursor
      st hinv
    have hpres2 := seed_step_preserves_gap cfg rand now end_time ldevs huni lasts
      cursor st hinv hgap
    cases hstep : seed_step cfg rand now end_time ldevs lasts cursor st with
    | exit st1 =>
      rw [hstep] at h hpres2
      cases h
      exact hpres2
    | placed l1 c1 st1 =>
      rw [hstep] at h hpres1 hpres2
      exact ih l1 c1 st1 st' hpres1 hpres2 h
    | skipped l1 c1 st1 =>
      rw [hstep] at h hpres1 hpres2
      exact ih l1 c1 st1 st' hpres1 hpres2 h

/-- The lineage fold preserves the bookkeeping invariant. -/
theorem seed_lineages_preserves_inv (cfg : SimulationConfig) (rand : SeedRand)
    (now start_time end_time : Int) (lf_devices ccm_devices : List String)
    (fuel : Nat) :
    ∀ (lineages : List (Nat × String)) (st st' : SeedState),
      seed_inv st →
      seed_lineages cfg rand now start_time end_time lf_devices ccm_devices fuel
        lineages st = some st' →
      seed_inv st' := by
  intro lineages
  induction lineages with
  | nil =>
    intro st st' hinv h
    rw [seed_lineages] at h
    cases h
    exact hinv
  | cons l rest ih =>
    intro st st' hinv h
    obtain ⟨line_idx, bof_device⟩ := l
    rw [seed_lineages] at h
    rcases hlin : seed_lineage cfg rand now end_time
        (bof_device,
          if line_idx < lf_devices.length then lf_devices.getD line_idx ""
          else lf_devices.getD 0 "",
          if line_idx < ccm_devices.length then ccm_devices.getD line_idx ""
          else ccm_devices.getD 0 "") fuel (none, none, none) start_time st
      with _ | st1 <;> rw [hlin] at h
    · cases h
    · dsimp only at h
      exact ih st1 st'
        (seed_lineage_preserves_inv cfg rand now end_time _ fuel _ _ st st1 hinv hlin)
        h

/-- The lineage fold preserves the transfer-gap invariant. -/
theorem seed_lineages_preserves_gap (cfg : SimulationConfig) (rand : SeedRand)
    (now start_time end_time : Int) (lf_devices ccm_devices : List String)
    (fuel : Nat)
    (huni : ∀ k w, 0 ≤ w → 0 ≤ rand.uni k w ∧ rand.uni k w ≤ w) :
    ∀ (lineages : List (Nat × String)) (st st' : SeedState),
      seed_inv st → seed_gap_inv cfg st →
      seed_lineages cfg rand now start_time end_time lf_devices ccm_devices fuel
        lineages st = some st' →
      seed_gap_inv cfg st' := by
  intro lineages
  induction lineages with
  | nil =>
    intro st st' _ hgap h
    rw [seed_lineages] at h
    cases h
    exact hgap
  | cons l rest ih =>
    intro st st' hinv hgap h
    obtain ⟨line_idx, bof_device⟩ := l
    rw [seed_lineages] at h
    rcases hlin : seed_lineage cfg rand now end_time
        (bof_device,
          if line_idx < lf_devices.length then lf_devices.getD line_idx ""
          else lf_devices.getD 0 "",
          if line_idx < ccm_devices.length then ccm_devices.getD line_idx ""
          else ccm_devices.getD 0 "") fuel (none, none, none) start_time st
      with _ | st1 <;> rw [hlin] at h
    · cases h
    · dsimp only at h
      exact ih st1 st'
        (seed_lineage_preserves_inv cfg rand now end_time _ fuel _ _ st st1 hinv hlin)
        (seed_lineage_preserves_gap cfg rand now end_time _ huni fuel _ _ st st1
          hinv hgap hlin)
        h

/-- C6 — Cancellation propagation in seeded data: in the table produced by
`seed_initial_timeline`, within every heat (in stored stage order, which is
the insertion order BOF, LF, CCM) a CANCELED stage is followed only by
CANCELED stages: once a cancel event fires during a stage's backfill, that
stage is overridden to CANCELED and every subsequent stage is inserted as
CANCELED. -/
theorem seed_cancellation_propagation (cfg : SimulationConfig) (rand : SeedRand)
    (fuel : Nat) (now : Int) (db' : List DbRow)
    (hfs : seed_initial_timeline cfg rand fuel now = some db') :
    ∀ h : Nat, List.Pairwise
      (fun a b => a.proc_status = ProcessStatus.CANCELED →
        b.proc_status = ProcessStatus.CANCELED)
      (db'.filter (fun r => r.heat_no == h)) := by
  rw [seed_initial_timeline] at hfs
  rcases hlin : seed_lineages cfg rand now
      (now - (cfg.max_rest_duration_minutes * max cfg.seed_past_heats 4 + 180))
      (now + (cfg.max_rest_duration_minutes * max cfg.seed_future_heats 4 + 120))
      (EQUIPMENT_devices "LF") (EQUIPMENT_devices "CCM") fuel
      (EQUIPMENT_devices "BOF").enum ⟨[], 0, 1, 0⟩ with _ | st <;>
    rw [hlin] at hfs
  · cases hfs
  · cases hfs
    have h0 : seed_inv ⟨[], 0, 1, 0⟩ := by
      refine ⟨by simp, by simp, ?_⟩
      intro h
      simp
    exact (seed_lineages_preserves_inv cfg rand now _ _ _ _ fuel _ _ st h0 hlin).2.2

/-- The later-stage planning loop keeps every consecutive transfer gap in
bounds, provided each random transfer-gap draw lies within the configured
bounds.  `a` is the already-planned previous stage whose planned end anchors
the loop. -/
theorem plan_later_stages_gaps (cfg : SimulationConfig) (db : List DbRow)
    (sample : List String → List String)
    (aligned_device : String → String → Option String) (dur gap : Nat → Int)
    (alignedR : Nat → Bool) (bof_device : String)
    (hgap : ∀ k, cfg.min_transfer_gap_minutes ≤ gap k ∧
      gap k ≤ cfg.max_transfer_gap_minutes) :
    ∀ (names : List String) (k : Nat) (a : PlannedOp) (rest : List PlannedOp),
      plan_later_stages cfg db sample aligned_device dur gap alignedR bof_device
        k a.plan_end names = some rest →
      List.Chain' (fun x y =>
        cfg.min_transfer_gap_minutes ≤ y.plan_start - x.plan_end ∧
        y.plan_start - x.plan_end ≤ cfg.max_transfer_gap_minutes) (a :: rest) := by
  intro names
  induction names with
  | nil =>
    intro k a rest h
    rw [plan_later_stages] at h
    cases h
    exact List.chain'_singleton a
  | cons name names ih =>
    intro k a rest h
    rw [plan_later_stages] at h
    rcases hslot : (match (if alignedR k then aligned_device bof_device name else none)
        with
      | some d => find_slot cfg db sample (a.plan_end + gap k)
          (some (a.plan_end + cfg.max_transfer_gap_minutes)) (dur k) [d] none true true
      | none => none) with _ | s0
    all_goals simp only [hslot] at h
    · rcases hfall : find_slot cfg db sample (a.plan_end + gap k)
          (some (a.plan_end + cfg.max_transfer_gap_minutes)) (dur k)
          (EQUIPMENT_devices name) none true true with _ | slot <;>
        rw [hfall] at h <;> dsimp only at h
      · cases h
      · rcases hrec : plan_later_stages cfg db sample aligned_device dur gap alignedR
            bof_device (k + 1) slot.plan_end names with _ | entries <;>
          rw [hrec] at h <;> dsimp only at h
        · cases h
        · cases h
          obtain ⟨hge, hle, _⟩ := find_slot_start_bounds cfg db sample _ _ _ _ _ _ _
            slot hfall
          rw [List.chain'_cons]
          constructor
          · have h1 := (hgap k).1
            have h2 := hle _ rfl
            constructor <;> dsimp only <;> omega
          · exact ih (k + 1)
              ⟨name, EQUIPMENT_proc_cd name, slot.device_no, slot.plan_start,
                slot.plan_end, ProcessStatus.PENDING, none, none⟩ entries hrec
    · rcases hrec : plan_later_stages cfg db sample aligned_device dur gap alignedR
          bof_device (k + 1) s0.plan_end names with _ | entries <;>
        rw [hrec] at h <;> dsimp only at h
      · cases h
      · cases h
        obtain ⟨d0, hd0⟩ : ∃ d, find_slot cfg db sample (a.plan_end + gap k)
            (some (a.plan_end + cfg.max_transfer_gap_minutes)) (dur k) [d] none
            true true = some s0 := by
          rcases halig : (if alignedR k then aligned_device bof_device name
              else none) with _ | d
          · rw [halig] at hslot
            cases hslot
          · rw [halig] at hslot
            exact ⟨d, hslot⟩
        obtain ⟨hge, hle, _⟩ := find_slot_start_bounds cfg db sample _ _ _ _ _ _ _
          s0 hd0
        rw [List.chain'_cons]
        constructor
        · have h1 := (hgap k).1
          have h2 := hle _ rfl
          constructor <;> dsimp only <;> omega
        · exact ih (k + 1)
            ⟨name, EQUIPMENT_proc_cd name, s0.device_no, s0.plan_start,
              s0.plan_end, ProcessStatus.PENDING, none, none⟩ entries hrec

/-- C5 — Transfer-gap bounds on generated plans: for every heat persisted by
`HeatPlanner.create_new_heat` (given that each injected random transfer gap
lies within the configured bounds) and for every heat laid down by
`OperationSeeder.seed_initial_timeline` (given that each uniform draw lies
within its requested interval), every pair of consecutive stages satisfies
`plan_start(next) - plan_end(prev) ∈ [min_transfer_gap, max_transfer_gap]`. -/
theorem transfer_gap_bounds (cfg : SimulationConfig) :
    (∀ (db : List DbRow) (sample : List String → List String)
      (aligned_device : String → String → Option String) (dur gap : Nat → Int)
      (alignedR : Nat → Bool) (now : Int) (entries : List PlannedOp),
      (∀ k, cfg.min_transfer_gap_minutes ≤ gap k ∧
        gap k ≤ cfg.max_transfer_gap_minutes) →
      create_new_heat cfg db sample aligned_device dur gap alignedR now =
        some entries →
      List.Chain' (fun x y =>
        cfg.min_transfer_gap_minutes ≤ y.plan_start - x.plan_end ∧
        y.plan_start - x.plan_end ≤ cfg.max_transfer_gap_minutes) entries) ∧
    (∀ (rand : SeedRand) (fuel : Nat) (now : Int) (db' : List DbRow),
      (∀ k w, 0 ≤ w → 0 ≤ rand.uni k w ∧ rand.uni k w ≤ w) →
      seed_initial_timeline cfg rand fuel now = some db' →
      ∀ h : Nat, List.Chain' (fun x y =>
        cfg.min_transfer_gap_minutes ≤ y.plan_start_time - x.plan_end_time ∧
        y.plan_start_time - x.plan_end_time ≤ cfg.max_transfer_gap_minutes)
        (db'.filter (fun r => r.heat_no == h))) := by
  constructor
  · intro db sample aligned_device dur gap alignedR now entries hgap hcr
    rw [create_new_heat] at hcr
    rcases hbof : find_slot cfg db sample now (some now) (dur 0)
        (EQUIPMENT_devices "BOF") none true true with _ | bof_slot <;>
      rw [hbof] at hcr <;> dsimp only at hcr
    · cases hcr
    · rcases hrest : plan_later_stages cfg db sample aligned_device dur gap alignedR
          bof_slot.device_no 1 bof_slot.plan_end PROCESS_FLOW.tail with _ | rest <;>
        rw [hrest] at hcr <;> dsimp only at hcr
      · cases hcr
      · cases hcr
        exact plan_later_stages_gaps cfg db sample aligned_device dur gap alignedR
          bof_slot.device_no hgap PROCESS_FLOW.tail 1
          ⟨"BOF", EQUIPMENT_proc_cd "BOF", bof_slot.device_no, bof_slot.plan_start,
            bof_slot.plan_end, ProcessStatus.ACTIVE, some bof_slot.plan_start, none⟩
          rest hrest
  · intro rand fuel now db' huni hfs
    rw [seed_initial_timeline] at hfs
    rcases hlin : seed_lineages cfg rand now
        (now - (cfg.max_rest_duration_minutes * max cfg.seed_past_heats 4 + 180))
        (now + (cfg.max_rest_duration_minutes * max cfg.seed_future_heats 4 + 120))
        (EQUIPMENT_devices "LF") (EQUIPMENT_devices "CCM") fuel
        (EQUIPMENT_devices "BOF").enum ⟨[], 0, 1, 0⟩ with _ | st <;>
      rw [hlin] at hfs
    · cases hfs
    · cases hfs
      have h0 : seed_inv ⟨[], 0, 1, 0⟩ := by
        refine ⟨by simp, by simp, ?_⟩
        intro h
        simp
      have hg0 : seed_gap_inv cfg ⟨[], 0, 1, 0⟩ := by
        intro h
        simp
      exact seed_lineages_preserves_gap cfg rand now _ _ _ _ fuel huni _ _ st h0
        hg0 hlin

set_option maxRecDepth 100000 in
/-- Witness for the transfer-gap theorem: a concrete planned heat (transfer
draws of 25 minutes inside `[20, 30]`) and a concrete seeded timeline. -/
theorem transfer_gap_bounds_witness :
    ((∀ k : Nat, cfgW.min_transfer_gap_minutes ≤ (fun _ : Nat => (25 : Int)) k ∧
        (fun _ : Nat => (25 : Int)) k ≤ cfgW.max_transfer_gap_minutes) ∧
      List.Chain' (fun x y =>
        cfgW.min_transfer_gap_minutes ≤ y.plan_start - x.plan_end ∧
        y.plan_start - x.plan_end ≤ cfgW.max_transfer_gap_minutes)
        ((create_new_heat cfgW [] id alignedW (fun _ => 30) (fun _ => 25)
          (fun _ => true) 0).getD [])) ∧
    ((∀ k w, (0 : Int) ≤ w → 0 ≤ randW.uni k w ∧ randW.uni k w ≤ w) ∧
      ∀ h : Nat, List.Chain' (fun x y =>
        cfgS.min_transfer_gap_minutes ≤ y.plan_start_time - x.plan_end_time ∧
        y.plan_start_time - x.plan_end_time ≤ cfgS.max_transfer_gap_minutes)
        (((seed_initial_timeline cfgS randW 50 0).getD []).filter
          (fun r => r.heat_no == h))) := by
  have hgapW : ∀ k : Nat, cfgW.min_transfer_gap_minutes ≤ (fun _ : Nat => (25 : Int)) k ∧
      (fun _ : Nat => (25 : Int)) k ≤ cfgW.max_transfer_gap_minutes :=
    fun _ => ⟨by norm_num [cfgW], by norm_num [cfgW]⟩
  have huniW : ∀ k w, (0 : Int) ≤ w → 0 ≤ randW.uni k w ∧ randW.uni k w ≤ w :=
    fun _ w hw => ⟨le_refl 0, hw⟩
  refine ⟨⟨hgapW, ?_⟩, ⟨huniW, ?_⟩⟩
  · exact (transfer_gap_bounds cfgW).1 [] id alignedW (fun _ => 30) (fun _ => 25)
      (fun _ => true) 0 _ hgapW rfl
  · exact (transfer_gap_bounds cfgS).2 randW 50 0 _ huniW rfl

set_option maxRecDepth 100000 in
/-- Witness for the cancellation-propagation theorem: the concrete seeded
timeline whose first heat has a COMPLETED BOF stage followed by a CANCELED
LF stage (cancel event at operation id 1) and a CANCELED CCM stage. -/
theorem seed_cancellation_propagation_witness :
    (seed_initial_timeline cfgS randW 50 0 =
      some ((seed_initial_timeline cfgS randW 50 0).getD []) ∧
      (((seed_initial_timeline cfgS randW 50 0).getD []).filter
        (fun r => r.heat_no == 1)).map (fun r => r.proc_status) =
        [ProcessStatus.COMPLETED, ProcessStatus.CANCELED, ProcessStatus.CANCELED]) ∧
    ∀ h : Nat, List.Pairwise
      (fun a b => a.proc_status = ProcessStatus.CANCELED →
        b.proc_status = ProcessStatus.CANCELED)
      (((seed_initial_timeline cfgS randW 50 0).getD []).filter
        (fun r => r.heat_no == h)) :=
  ⟨⟨rfl, by decide⟩, seed_cancellation_propagation cfgS randW 50 0 _ rfl⟩

/-- Cursor advance of one seeding iteration: a placed workflow moves the
cursor to the recorded BOF end plus a rest draw of at least `min_rest`; a
failed iteration moves it by exactly `max_rest`; both advance strictly. -/
theorem seed_step_advance (cfg : SimulationConfig) (rand : SeedRand)
    (now end_time : Int) (ldevs : String × String × String)
    (hmaxr : 1 ≤ cfg.max_rest_duration_minutes)
    (hdur : ∀ j, 1 ≤ rand.dur j)
    (hrest : ∀ j, cfg.min_rest_duration_minutes ≤ rand.rest j)
    (hminr : 0 ≤ cfg.min_rest_duration_minutes)
    (lasts : Option Int × Option Int × Option Int) (cursor : Int) (st : SeedState)
    (l' : Option Int × Option Int × Option Int) (c' : Int) (st' : SeedState) :
    (seed_step cfg rand now end_time ldevs lasts cursor st = .placed l' c' st' →
      (∃ be, l'.1 = some be ∧ be + cfg.min_rest_duration_minutes ≤ c') ∧
      cursor + 1 ≤ c') ∧
    (seed_step cfg rand now end_time ldevs lasts cursor st = .skipped l' c' st' →
      l' = lasts ∧ c' = cursor + cfg.max_rest_duration_minutes ∧
      cursor + 1 ≤ c') := by
  rw [seed_step]
  by_cases hc : cursor > end_time
  · rw [if_pos hc]
    constructor
    · intro h
      cases h
    · intro h
      cases h
  · rw [if_neg hc]
    dsimp only
    rcases htry : seed_try_attempts cfg rand end_time lasts cursor 30 st.k with
      ⟨res, k'⟩
    rcases res with _ | ⟨bs, be, ls, le, cs, ce⟩
    · dsimp only
      constructor
      · intro h
        cases h
      · intro h
        cases h
        refine ⟨rfl, rfl, ?_⟩
        omega
    · dsimp only
      constructor
      · intro h
        cases h
        obtain ⟨k0, hatt⟩ := seed_try_attempts_placed cfg rand end_time lasts cursor
          30 st.k bs be ls le cs ce k' htry
        obtain ⟨lfE, lfL, ccmE, ccmL, hbs, _, hbe, _⟩ :=
          seed_attempt_placed_eqs cfg rand end_time lasts cursor k0 bs be ls le cs
            ce k' hatt
        have h1 := hrest k'
        have h2 := hdur (k0 + 1)
        refine ⟨⟨be, rfl, by omega⟩, by omega⟩
      · intro h
        cases h

/-- With strictly advancing iterations, the per-lineage loop finishes within
any fuel exceeding the remaining horizon length. -/
theorem seed_lineage_terminates (cfg : SimulationConfig) (rand : SeedRand)
    (now end_time : Int) (ldevs : String × String × String)
    (hmaxr : 1 ≤ cfg.max_rest_duration_minutes)
    (hdur : ∀ j, 1 ≤ rand.dur j)
    (hrest : ∀ j, cfg.min_rest_duration_minutes ≤ rand.rest j)
    (hminr : 0 ≤ cfg.min_rest_duration_minutes) :
    ∀ (fuel : Nat) (cursor : Int)
      (lasts : Option Int × Option Int × Option Int) (st : SeedState),
      (end_time + 1 - cursor).toNat < fuel →
      (seed_lineage cfg rand now end_time ldevs fuel lasts cursor st).isSome := by
  intro fuel
  induction fuel with
  | zero =>
    intro cursor lasts st hb
    omega
  | succ fuel ih =>
    intro cursor lasts st hb
    rw [seed_lineage]
    cases hstep : seed_step cfg rand now end_time ldevs lasts cursor st with
    | exit st1 => simp
    | placed l1 c1 st1 =>
      dsimp only
      have hcle : ¬cursor > end_time := by
        intro hgt
        rw [seed_step, if_pos hgt] at hstep
        cases hstep
      have hadv := ((seed_step_advance cfg rand now end_time ldevs hmaxr hdur hrest
        hminr lasts cursor st l1 c1 st1).1 hstep).2
      exact ih c1 l1 st1 (by omega)
    | skipped l1 c1 st1 =>
      dsimp only
      have hcle : ¬cursor > end_time := by
        intro hgt
        rw [seed_step, if_pos hgt] at hstep
        cases hstep
      have hadv := ((seed_step_advance cfg rand now end_time ldevs hmaxr hdur hrest
        hminr lasts cursor st l1 c1 st1).2 hstep).2.2
      exact ih c1 l1 st1 (by omega)

/-- With strictly advancing iterations, the whole lineage fold succeeds. -/
theorem seed_lineages_terminate (cfg : SimulationConfig) (rand : SeedRand)
    (now start_time end_time : Int) (lf_devices ccm_devices : List String)
    (fuel : Nat)
    (hmaxr : 1 ≤ cfg.max_rest_duration_minutes)
    (hdur : ∀ j, 1 ≤ rand.dur j)
    (hrest : ∀ j, cfg.min_rest_duration_minutes ≤ rand.rest j)
    (hminr : 0 ≤ cfg.min_rest_duration_minutes)
    (hfuel : (end_time + 1 - start_time).toNat < fuel) :
    ∀ (lineages : List (Nat × String)) (st : SeedState),
      (seed_lineages cfg rand now start_time end_time lf_devices ccm_devices fuel
        lineages st).isSome := by
  intro lineages
  induction lineages with
  | nil =>
    intro st
    rw [seed_lineages]
    simp
  | cons l rest ih =>
    intro st
    obtain ⟨line_idx, bof_device⟩ := l
    rw [seed_lineages]
    have hsome := seed_lineage_terminates cfg rand now end_time
      (bof_device,
        if line_idx < lf_devices.length then lf_devices.getD line_idx ""
        else lf_devices.getD 0 "",
        if line_idx < ccm_devices.length then ccm_devices.getD line_idx ""
        else ccm_devices.getD 0 "") hmaxr hdur hrest hminr fuel start_time
      (none, none, none) st hfuel
    rcases hlin : seed_lineage cfg rand now end_time
        (bof_device,
          if line_idx < lf_devices.length then lf_devices.getD line_idx ""
          else lf_devices.getD 0 "",
          if line_idx < ccm_devices.length then ccm_devices.getD line_idx ""
          else ccm_devices.getD 0 "") fuel (none, none, none) start_time st
      with _ | st1
    · rw [hlin] at hsome
      cases hsome
    · dsimp only
      exact ih st1

/-- C7 — Seeder termination: with `max_rest >= 1`, strictly positive
duration draws, and rest draws of at least a non-negative `min_rest`, every
iteration of the per-lineage `while` loop strictly advances the cursor — on
a placed workflow to the recorded BOF end plus a rest draw of at least
`min_rest`, and after the 30 failed attempts by exactly `max_rest` — so
`seed_initial_timeline` completes (returns a table) for every fuel larger
than the horizon length. -/
theorem seeder_termination (cfg : SimulationConfig) (rand : SeedRand)
    (hmaxr : 1 ≤ cfg.max_rest_duration_minutes)
    (hdur : ∀ j, 1 ≤ rand.dur j)
    (hrest : ∀ j, cfg.min_rest_duration_minutes ≤ rand.rest j)
    (hminr : 0 ≤ cfg.min_rest_duration_minutes) :
    (∀ (now end_time : Int) (ldevs : String × String × String)
      (lasts l' : Option Int × Option Int × Option Int) (cursor c' : Int)
      (st st' : SeedState),
      (seed_step cfg rand now end_time ldevs lasts cursor st = .placed l' c' st' →
        (∃ be, l'.1 = some be ∧ be + cfg.min_rest_duration_minutes ≤ c') ∧
        cursor + 1 ≤ c') ∧
      (seed_step cfg rand now end_time ldevs lasts cursor st = .skipped l' c' st' →
        c' = cursor + cfg.max_rest_duration_minutes ∧ cursor + 1 ≤ c')) ∧
    (∀ (fuel : Nat) (now : Int),
      ((cfg.max_rest_duration_minutes * max cfg.seed_past_heats 4 + 180) +
        (cfg.max_rest_duration_minutes * max cfg.seed_future_heats 4 + 120) +
        1).toNat < fuel →
      (seed_initial_timeline cfg rand fuel now).isSome) := by
  constructor
  · intro now end_time ldevs lasts l' cursor c' st st'
    have hadv := seed_step_advance cfg rand now end_time ldevs hmaxr hdur hrest
      hminr lasts cursor st l' c' st'
    exact ⟨hadv.1, fun h => ⟨(hadv.2 h).2.1, (hadv.2 h).2.2⟩⟩
  · intro fuel now hfuel
    rw [seed_initial_timeline]
    have hsome := seed_lineages_terminate cfg rand now
      (now - (cfg.max_rest_duration_minutes * max cfg.seed_past_heats 4 + 180))
      (now + (cfg.max_rest_duration_minutes * max cfg.seed_future_heats 4 + 120))
      (EQUIPMENT_devices "LF") (EQUIPMENT_devices "CCM") fuel hmaxr hdur hrest hminr
      (by
        have : (now + (cfg.max_rest_duration_minutes * max cfg.seed_future_heats 4
            + 120) + 1 -
            (now - (cfg.max_rest_duration_minutes * max cfg.seed_past_heats 4
              + 180))) =
            ((cfg.max_rest_duration_minutes * max cfg.seed_past_heats 4 + 180) +
              (cfg.max_rest_duration_minutes * max cfg.seed_future_heats 4 + 120) +
              1) := by ring
        rw [this]
        exact hfuel)
      (EQUIPMENT_devices "BOF").enum ⟨[], 0, 1, 0⟩
    rcases hlin : seed_lineages cfg rand now
        (now - (cfg.max_rest_duration_minutes * max cfg.seed_past_heats 4 + 180))
        (now + (cfg.max_rest_duration_minutes * max cfg.seed_future_heats 4 + 120))
        (EQUIPMENT_devices "LF") (EQUIPMENT_devices "CCM") fuel
        (EQUIPMENT_devices "BOF").enum ⟨[], 0, 1, 0⟩ with _ | st
    · rw [hlin] at hsome
      cases hsome
    · simp

/-- Witness for seeder termination at the concrete seeding configuration and
draws, with fuel 400 exceeding the 321-minute horizon bound. -/
theorem seeder_termination_witness :
    ((1 : Int) ≤ cfgS.max_rest_duration_minutes ∧
      (∀ j, (1 : Int) ≤ randW.dur j) ∧
      (∀ j, cfgS.min_rest_duration_minutes ≤ randW.rest j) ∧
      (0 : Int) ≤ cfgS.min_rest_duration_minutes ∧
      ((cfgS.max_rest_duration_minutes * max cfgS.seed_past_heats 4 + 180) +
        (cfgS.max_rest_duration_minutes * max cfgS.seed_future_heats 4 + 120) +
        1).toNat < 400) ∧
    (seed_initial_timeline cfgS randW 400 0).isSome := by
  have hdur : ∀ j, (1 : Int) ≤ randW.dur j := fun _ => by norm_num [randW]
  have hrest : ∀ j, cfgS.min_rest_duration_minutes ≤ randW.rest j := fun _ => by
    norm_num [randW, cfgS]
  refine ⟨⟨by decide, hdur, hrest, by decide, by decide⟩, ?_⟩
  exact (seeder_termination cfgS randW (by decide) hdur hrest (by decide)).2 400 0
    (by decide)
